import Mathlib

/-!
# scionerrormigrate: the call rewriter `handleNewError`

A shallow embedding of `main.go`.  The tool walks the syntax tree of every
file and, at each node, runs `handleNewError`, which recognises calls of
`common.NewBasicError` and replaces them by calls into `serrors` (or by the
message expression alone).

The first part is the function itself; the second part is the traversal
that calls it on every node of a file, the import bookkeeping of `main` for
one file, and the loop of `main` over the files, with the loader, the file
system and the printer as arguments.

The embedding keeps what the function reads and writes:

* the dynamic type of a `go/ast` node (the function discriminates nodes with
  type assertions), with the fields the function looks at;
* the node held by the `astutil.Cursor` and the type of the place it sits
  in, which `Replace` writes to;
* the three booleans the function returns and the text it prints;
* the run-time panics: an index expression that is out of range, and a
  `Replace` that puts a node into a place whose type does not take it.

Source positions are not modelled, except for whether a call carries a final
`...` (`CallExpr.Ellipsis`), which a freshly built call never does.
-/

namespace ErrMigrate

/-! ## Syntax trees -/

/-- The token kinds a `go/ast` `BasicLit` can have. -/
inductive Token where
  | INT
  | FLOAT
  | IMAG
  | CHAR
  | STRING
  deriving DecidableEq, Repr

/-- A `go/ast` node, by dynamic type.  The node types `handleNewError`
asserts on are spelled out with their fields; a few more expression kinds
are listed so that realistic arguments can be written down; every remaining
node type (statements, declarations, the file, the other expressions) is
`Other`, tagged with its type name and holding its child nodes in traversal
order.  `DeferStmt` and `GoStmt` are spelled out because their field `Call`
has the type `*ast.CallExpr`: they are the only places of a tree where a call
expression sits in a field that takes nothing but a call expression.
`SelectorExpr.Sel` is an `*ast.Ident` in Go and is represented by its
`Name`. -/
inductive Node where
  | Ident (Name : String)
  | BasicLit (Kind : Token) (Value : String)
  | CompositeLit (Typ : Option Node) (Elts : List Node)
  | ParenExpr (X : Node)
  | SelectorExpr (X : Node) (Sel : String)
  | CallExpr (Fun : Node) (Args : List Node) (Ellipsis : Bool)
  | UnaryExpr (Op : String) (X : Node)
  | BinaryExpr (X : Node) (Op : String) (Y : Node)
  | DeferStmt (Call : Node)
  | GoStmt (Call : Node)
  | Other (kind : String) (children : List Node)
  deriving Repr

/-- The type assertion `n.(*ast.BasicLit)`, its `ok` result. -/
def Node.isBasicLit : Node → Bool
  | .BasicLit _ _ => true
  | _ => false

/-- The type assertion `n.(*ast.CompositeLit)`, its `ok` result. -/
def Node.isCompositeLit : Node → Bool
  | .CompositeLit _ _ => true
  | _ => false

/-- The type assertion `n.(*ast.Ident)`, its `ok` result. -/
def Node.isIdent : Node → Bool
  | .Ident _ => true
  | _ => false

/-- Whether a node is a call expression (its dynamic type is
`*ast.CallExpr`). -/
def Node.isCall : Node → Bool
  | .CallExpr _ _ _ => true
  | _ => false

/-! ## Run-time failure and indexing -/

/-- A Go run-time panic. -/
inductive Panic where
  | indexOutOfRange (index : Nat) (length : Nat)
  | notAssignable
  deriving DecidableEq, Repr

/-- The Go index expression `xs[i]` on a slice: it panics when `i` is not
below `len(xs)`. -/
def index (xs : List Node) (i : Nat) : Except Panic Node :=
  match xs[i]? with
  | some x => .ok x
  | none => .error (.indexOutOfRange i xs.length)

/-! ## The cursor -/

/-- The static type of the place (a field of the parent node, or an element
of a slice field) a cursor points to, as far as it matters where a call
expression sits: `Expr` is an interface-typed place (`ast.Expr`, an element of
`[]ast.Expr`, or the root handed to `Apply`), which takes every expression;
`CallExpr` is a place of type `*ast.CallExpr` (`DeferStmt.Call`,
`GoStmt.Call`), which takes a call expression only.  `Replace` is only ever
called on a call expression, so for other nodes the place plays no role. -/
inductive Slot where
  | Expr
  | CallExpr
  deriving DecidableEq, Repr

/-- The part of an `astutil.Cursor` the rewriter uses: the current node and
the place in its parent it sits in. -/
structure Cursor where
  node : Node
  slot : Slot
  deriving Repr

/-- Go `cursor.Node()`. -/
def Cursor.Node (c : Cursor) : ErrMigrate.Node := c.node

/-- Go `cursor.Replace(n)`: `n` is assigned to the place of the cursor by
reflection (`v.Set(reflect.ValueOf(n))`), which panics when the type of `n`
is not assignable to the type of the place. -/
def Cursor.Replace (c : Cursor) (n : ErrMigrate.Node) : Except Panic Cursor :=
  match c.slot with
  | .Expr => .ok { c with node := n }
  | .CallExpr => if n.isCall then .ok { c with node := n } else .error .notAssignable

/-! ## handleNewError -/

/-- What one run of `handleNewError` leaves behind: the three returned
booleans (whether the traversal continues, whether the file was modified,
whether the `serrors` import is required), the cursor afterwards and the
text written to standard output. -/
structure Ret where
  cont : Bool
  modified : Bool
  importReq : Bool
  cursor : Cursor
  stdout : List String
  deriving Repr

/-- The call `pkg.method(args)` as the rewriter builds it: a `CallExpr` on a
`SelectorExpr` over an `Ident`, all positions zero (so no `...`). -/
def newCall (pkg method : String) (args : List Node) : Node :=
  .CallExpr (.SelectorExpr (.Ident pkg) method) args false

/-- The early return `return true, false, false` with nothing replaced and
nothing printed. -/
def noMatch (cursor : Cursor) : Ret :=
  { cont := true, modified := false, importReq := false, cursor := cursor, stdout := [] }

/-- Go `handleNewError` (main.go, lines 85-154).  What was printed before a
panic is not kept. -/
def handleNewError (cursor : Cursor) : Except Panic Ret :=
  let n := cursor.Node
  match n with
  | .CallExpr Fun Args _ =>
    match Fun with
    | .SelectorExpr X Sel =>
      match X with
      | .Ident pkgName =>
        if pkgName ≠ "common" then .ok (noMatch cursor)
        else if Sel ≠ "NewBasicError" then .ok (noMatch cursor)
        else
          match index Args 1 with
          | .error p => .error p
          | .ok arg1 =>
            match arg1 with
            | .Ident errName =>
              match index Args 0 with
              | .error p => .error p
              | .ok arg0 =>
                let stringMsg := arg0.isBasicLit
                if errName = "nil" then
                  let newArgs := [arg0]
                  let newArgs := if Args.length > 2 then newArgs ++ Args.drop 2 else newArgs
                  let replaceIdent := "New"
                  if !stringMsg then
                    let stdout := if arg0.isCompositeLit then ["composite lit:\n"] else []
                    let replaceIdent := "WithCtx"
                    if Args.length ≤ 2 then
                      match cursor.Replace arg0 with
                      | .error p => .error p
                      | .ok cursor1 =>
                        .ok { cont := true, modified := true, importReq := false,
                              cursor := cursor1, stdout := stdout }
                    else
                      match cursor.Replace (newCall "serrors" replaceIdent newArgs) with
                      | .error p => .error p
                      | .ok cursor1 =>
                        .ok { cont := true, modified := true, importReq := true,
                              cursor := cursor1, stdout := stdout }
                  else
                    match cursor.Replace (newCall "serrors" replaceIdent newArgs) with
                    | .error p => .error p
                    | .ok cursor1 =>
                      .ok { cont := true, modified := true, importReq := true,
                            cursor := cursor1, stdout := [] }
                else
                  let replaceIdent := "WrapStr"
                  let replaceIdent := if !stringMsg then "Wrap" else replaceIdent
                  match cursor.Replace (newCall "serrors" replaceIdent Args) with
                  | .error p => .error p
                  | .ok cursor1 =>
                    .ok { cont := true, modified := true, importReq := true,
                          cursor := cursor1, stdout := [] }
            | _ => .ok (noMatch cursor)
      | _ => .ok (noMatch cursor)
    | _ => .ok (noMatch cursor)
  | _ => .ok (noMatch cursor)

/-- The call `common.NewBasicError(args)`, with or without a final `...`. -/
def legacyCall (args : List Node) (ellipsis : Bool) : Node :=
  .CallExpr (.SelectorExpr (.Ident "common") "NewBasicError") args ellipsis

/-- The identifier `nil`. -/
def nilIdent : Node := .Ident "nil"

/-! ## The traversal

`main` runs `astutil.Apply(file, nil, post)` on every file, where `post` is a
closure that calls `handleNewError` and accumulates two booleans.  `Apply`
belongs to the library `golang.org/x/tools`; with no `pre` callback it visits
the children of a node in field order and then calls `post` on the node
itself, and it stops the whole traversal as soon as `post` returns false.
Every function of the traversal is told the place the node sits in. -/

/-- The state of one traversal: the variables `fileModified` and `addImport`
the callback closes over, the standard output so far, whether the traversal
has been stopped, and (as a record of the run) the result of every call of
`handleNewError` so far, in order. -/
structure Walk where
  fileModified : Bool
  addImport : Bool
  stdout : List String
  aborted : Bool
  calls : List Ret
  deriving Repr

/-- The state at the start of a file (main.go, lines 55-56). -/
def Walk.start : Walk :=
  { fileModified := false, addImport := false, stdout := [], aborted := false, calls := [] }

/-- The callback of main.go, lines 57-62, run on the node `n` at the cursor,
which sits in the place `slot`: it returns the node now at the cursor's
place.  Once the traversal has been stopped the callback is not called any
more. -/
def post (n : Node) (slot : Slot) (w : Walk) : Except Panic (Node × Walk) :=
  if w.aborted then .ok (n, w)
  else
    match handleNewError ⟨n, slot⟩ with
    | .error p => .error p
    | .ok r =>
      .ok (r.cursor.node,
        { fileModified := w.fileModified || r.modified,
          addImport := w.addImport || r.importReq,
          stdout := w.stdout ++ r.stdout,
          aborted := !r.cont,
          calls := w.calls ++ [r] })

mutual
/-- The traversal `astutil.Apply` with only a `post` callback: children
first, in field order, then the node itself.  The children of the listed
expressions sit in places of type `ast.Expr`; the call of a `defer` or `go`
statement sits in a place of type `*ast.CallExpr`.  The `Sel` of a selector
expression is an identifier, on which the callback changes nothing (it is
not a call expression); it is not visited here. -/
def applyNode (n : Node) (slot : Slot) (w : Walk) : Except Panic (Node × Walk) :=
  match n with
  | .Ident name => post (.Ident name) slot w
  | .BasicLit kind value => post (.BasicLit kind value) slot w
  | .CompositeLit typ elts =>
    match applyOption typ w with
    | .error p => .error p
    | .ok (typ1, w1) =>
      match applyList elts w1 with
      | .error p => .error p
      | .ok (elts1, w2) => post (.CompositeLit typ1 elts1) slot w2
  | .ParenExpr x =>
    match applyNode x .Expr w with
    | .error p => .error p
    | .ok (x1, w1) => post (.ParenExpr x1) slot w1
  | .SelectorExpr x sel =>
    match applyNode x .Expr w with
    | .error p => .error p
    | .ok (x1, w1) => post (.SelectorExpr x1 sel) slot w1
  | .CallExpr f args ell =>
    match applyNode f .Expr w with
    | .error p => .error p
    | .ok (f1, w1) =>
      match applyList args w1 with
      | .error p => .error p
      | .ok (args1, w2) => post (.CallExpr f1 args1 ell) slot w2
  | .UnaryExpr op x =>
    match applyNode x .Expr w with
    | .error p => .error p
    | .ok (x1, w1) => post (.UnaryExpr op x1) slot w1
  | .BinaryExpr x op y =>
    match applyNode x .Expr w with
    | .error p => .error p
    | .ok (x1, w1) =>
      match applyNode y .Expr w1 with
      | .error p => .error p
      | .ok (y1, w2) => post (.BinaryExpr x1 op y1) slot w2
  | .DeferStmt call =>
    match applyNode call .CallExpr w with
    | .error p => .error p
    | .ok (call1, w1) => post (.DeferStmt call1) slot w1
  | .GoStmt call =>
    match applyNode call .CallExpr w with
    | .error p => .error p
    | .ok (call1, w1) => post (.GoStmt call1) slot w1
  | .Other kind children =>
    match applyList children w with
    | .error p => .error p
    | .ok (children1, w1) => post (.Other kind children1) slot w1
/-- The traversal of a list of nodes, from left to right; the elements sit
in interface-typed places. -/
def applyList (ns : List Node) (w : Walk) : Except Panic (List Node × Walk) :=
  match ns with
  | [] => .ok ([], w)
  | n :: rest =>
    match applyNode n .Expr w with
    | .error p => .error p
    | .ok (n1, w1) =>
      match applyList rest w1 with
      | .error p => .error p
      | .ok (rest1, w2) => .ok (n1 :: rest1, w2)
/-- The traversal of a field of type `ast.Expr` that may be nil. -/
def applyOption (o : Option Node) (w : Walk) : Except Panic (Option Node × Walk) :=
  match o with
  | none => .ok (none, w)
  | some n =>
    match applyNode n .Expr w with
    | .error p => .error p
    | .ok (n1, w1) => .ok (some n1, w1)
end

mutual
/-- Every node of a tree, children before their parent, in the order of the
traversal. -/
def Node.nodes (n : Node) : List Node :=
  match n with
  | .Ident name => [.Ident name]
  | .BasicLit kind value => [.BasicLit kind value]
  | .CompositeLit typ elts => nodesOption typ ++ nodesList elts ++ [.CompositeLit typ elts]
  | .ParenExpr x => x.nodes ++ [.ParenExpr x]
  | .SelectorExpr x sel => x.nodes ++ [.SelectorExpr x sel]
  | .CallExpr f args ell => f.nodes ++ nodesList args ++ [.CallExpr f args ell]
  | .UnaryExpr op x => x.nodes ++ [.UnaryExpr op x]
  | .BinaryExpr x op y => x.nodes ++ y.nodes ++ [.BinaryExpr x op y]
  | .DeferStmt call => call.nodes ++ [.DeferStmt call]
  | .GoStmt call => call.nodes ++ [.GoStmt call]
  | .Other kind children => nodesList children ++ [.Other kind children]
/-- Every node of the trees of a list. -/
def nodesList (ns : List Node) : List Node :=
  match ns with
  | [] => []
  | n :: rest => n.nodes ++ nodesList rest
/-- Every node of a tree that may be absent. -/
def nodesOption (o : Option Node) : List Node :=
  match o with
  | none => []
  | some n => n.nodes
end

/-- Whether a node is a call of the selector `common.NewBasicError`, with any
arguments. -/
def Node.isLegacyCall : Node → Bool
  | .CallExpr (.SelectorExpr (.Ident pkg) sel) _ _ => pkg == "common" && sel == "NewBasicError"
  | _ => false

/-- Whether a node in the function position of a call can have become the
selector `common.NewBasicError` once its own subtree has been traversed: it
is that selector already, or an unwrap can put it there (the node is a call,
or a selection of `NewBasicError` from a call). -/
def Node.mayBecomeLegacyCallee : Node → Bool
  | .CallExpr _ _ _ => true
  | .SelectorExpr (.Ident pkg) sel => pkg == "common" && sel == "NewBasicError"
  | .SelectorExpr (.CallExpr _ _ _) sel => sel == "NewBasicError"
  | _ => false

/-- Whether a node cannot be unwrapped when the callback reaches it: it is
not a call, or its function cannot have become `common.NewBasicError`, or it
has not exactly two arguments. -/
def Node.unwrapFree : Node → Bool
  | .CallExpr f args _ => !f.mayBecomeLegacyCallee || decide (args.length ≠ 2)
  | _ => true

/-- A call whose function can have become `common.NewBasicError` when the
callback reaches it has at least two arguments, and the call of a `defer` or
`go` statement cannot be unwrapped; any other node passes. -/
def Node.guarded : Node → Bool
  | .CallExpr f args _ => !f.mayBecomeLegacyCallee || decide (2 ≤ args.length)
  | .DeferStmt call => call.unwrapFree
  | .GoStmt call => call.unwrapFree
  | _ => true

/-- How the node `n1` found at a place after the traversal of the subtree
`n` is tied to `n`: unless `n` is a call, an identifier comes from the same
identifier and a selection comes from a selection of the same name, whose
operand is in turn a call or tied in the same way. -/
def Node.tracks (n n1 : Node) : Prop :=
  n.isCall = true
    ∨ ((∀ p, n1 = .Ident p → n = .Ident p)
      ∧ ∀ x1 s, n1 = .SelectorExpr x1 s →
          ∃ x, n = .SelectorExpr x s ∧ (x.isCall = true ∨ ∀ p, x1 = .Ident p → x = .Ident p))

/-! ## The work on one file -/

/-- A call `main` makes on the import declarations of a file. -/
inductive ImportOp where
  | AddImport (path : String)
  | DeleteImport (path : String)
  deriving DecidableEq, Repr

/-- The import path of the new library. -/
def serrorsPath : String := "github.com/scionproto/scion/go/lib/serrors"

/-- The import path of the old library. -/
def commonPath : String := "github.com/scionproto/scion/go/lib/common"

/-- A file after lines 55-70 of main.go: its tree, the two flags, the calls
made on its import declarations, and the text printed on the way. -/
structure Rewritten where
  file : Node
  fileModified : Bool
  addImport : Bool
  imports : List ImportOp
  stdout : List String
  calls : List Ret
  deriving Repr

/-- Lines 55-70 of main.go on one file.  `UsesImport` stands for
`astutil.UsesImport` of the library `golang.org/x/tools`, asked about the
rewritten tree. -/
def rewriteFile (UsesImport : Node → String → Bool) (file : Node) : Except Panic Rewritten :=
  match applyNode file .Expr Walk.start with
  | .error p => .error p
  | .ok (file1, w) =>
    let imports : List ImportOp :=
      if w.fileModified then
        (if w.addImport then [.AddImport serrorsPath] else [])
          ++ (if !UsesImport file1 commonPath then [.DeleteImport commonPath] else [])
      else []
    .ok { file := file1, fileModified := w.fileModified, addImport := w.addImport,
          imports := imports, stdout := w.stdout, calls := w.calls }

/-- Modelled from the spec: what `astutil.AddImport` and
`astutil.DeleteImport` (library `golang.org/x/tools`, not among the sources)
do to the import paths of a file. `AddImport` makes sure the path is among
them, once; `DeleteImport` removes it. -/
def ImportOp.run (op : ImportOp) (imports : List String) : List String :=
  match op with
  | .AddImport path => if path ∈ imports then imports else imports ++ [path]
  | .DeleteImport path => imports.filter (fun p => p ≠ path)

/-- The import paths of a file after a list of calls on them, in order. -/
def runImports (ops : List ImportOp) (imports : List String) : List String :=
  ops.foldl (fun acc op => op.run acc) imports

/-- Modelled from the spec: a stand-in for `astutil.UsesImport` (library
`golang.org/x/tools`, not among the sources) for use in examples: whether
some selector expression of the tree selects from the identifier `name`. -/
def usesIdent (name : String) (tree : Node) : Bool :=
  tree.nodes.any (fun n =>
    match n with
    | .SelectorExpr (.Ident pkg) _ => pkg == name
    | _ => false)

/-- The record of a traversal is sound: the two flags are the disjunctions
of the flags returned so far, and every entry of the record is a result of
`handleNewError`. -/
def Walk.Sound (w : Walk) : Prop :=
  w.fileModified = w.calls.any (fun r => r.modified)
    ∧ w.addImport = w.calls.any (fun r => r.importReq)
    ∧ ∀ r ∈ w.calls, ∃ c, handleNewError c = .ok r

/-! ## The run

What `main` does after the packages are loaded, with the outside world (the
loader, the file system, the printer) as an argument. -/

/-- A file of a loaded package: its name in the file set and its syntax
tree. -/
structure File where
  name : String
  tree : Node
  deriving Repr

/-- A loaded package, reduced to its files (the field `Syntax` in Go). -/
structure Package where
  files : List File
  deriving Repr

/-- The outside world of a run: what `packages.Load` returns and which
errors it reports, what `astutil.UsesImport` answers, and for which file
names `os.OpenFile` and `format.Node` fail. -/
structure World where
  load : Except String (List Package)
  loadErrors : List String
  UsesImport : Node → String → Bool
  openFails : String → Bool
  formatFails : String → Bool

/-- Something a run does that can be seen from outside. -/
inductive Event where
  | Stdout (text : String)
  | Stderr (text : String)
  | Import (file : String) (op : ImportOp)
  | Opened (file : String)
  | Formatted (file : String) (tree : Node)
  | Closed (file : String)
  deriving Repr

/-- How a run ends: `main` returns (exit status 0), `os.Exit` is called, or
a panic ends the program. -/
inductive Ending where
  | returned
  | exit (status : Nat)
  | panicked (p : Panic)
  deriving DecidableEq, Repr

/-- The body of the loop over the files, main.go lines 55-80: the events of
this file and, when the program ends here, how.  (What a traversal printed
before it panicked is not recorded.) -/
def doFile (world : World) (file : File) : List Event × Option Ending :=
  match rewriteFile world.UsesImport file.tree with
  | .error p => ([], some (.panicked p))
  | .ok rw =>
    let events := rw.stdout.map Event.Stdout ++ rw.imports.map (Event.Import file.name)
    if world.openFails file.name then
      (events ++ [.Stderr ("Failed to open file for writing: " ++ file.name)], some (.exit 1))
    else
      let events := events ++ [.Opened file.name]
      let events :=
        if world.formatFails file.name then events ++ [.Stdout "Failed to write file\n"]
        else events ++ [.Formatted file.name rw.file]
      (events ++ [.Closed file.name], none)

/-- The loop over files, in order, until one of them ends the program. -/
def doFiles (world : World) : List File → List Event × Option Ending
  | [] => ([], none)
  | file :: rest =>
    match doFile world file with
    | (events, some ending) => (events, some ending)
    | (events, none) =>
      let (events1, ending) := doFiles world rest
      (events ++ events1, ending)

/-- Go `main` (main.go, lines 32-83), after the flags are parsed.  The two
nested loops over packages and their files visit the files of all packages in
order.  (The comment of lines 51-52 speaks of printing the names of the
source files; the loop prints no file name.) -/
def main (world : World) : List Event × Ending :=
  match world.load with
  | .error err => ([.Stderr ("load: " ++ err ++ "\n")], .exit 1)
  | .ok pkgs =>
    if world.loadErrors.length > 0 then (world.loadErrors.map Event.Stderr, .exit 1)
    else
      match doFiles world (pkgs.map Package.files).flatten with
      | (events, some ending) => (events, ending)
      | (events, none) => (events, .returned)

/-! ## Branch lemmas

One lemma per path through `handleNewError` on a call of
`common.NewBasicError`. -/

theorem index_zero_cons (a : Node) (l : List Node) : index (a :: l) 0 = .ok a := by
  simp [index]

theorem index_one_cons (a b : Node) (l : List Node) : index (a :: b :: l) 1 = .ok b := by
  simp [index]

theorem index_one_short (args : List Node) (h : args.length < 2) :
    index args 1 = .error (.indexOutOfRange 1 args.length) := by
  match args, h with
  | [], _ => rfl
  | [_], _ => rfl

/-- With fewer than two arguments the index expression `ce.Args[1]` panics. -/
theorem handleNewError_short {slot : Slot} (args : List Node) (ell : Bool) (h : args.length < 2) :
    handleNewError ⟨legacyCall args ell, slot⟩ = .error (.indexOutOfRange 1 args.length) := by
  simp [handleNewError, legacyCall, Cursor.Node, index_one_short args h]

/-- The second argument is not an identifier: early return. -/
theorem handleNewError_nonIdent {slot : Slot} (a0 a1 : Node) (ctx : List Node) (ell : Bool)
    (h : a1.isIdent = false) :
    handleNewError ⟨legacyCall (a0 :: a1 :: ctx) ell, slot⟩
      = .ok (noMatch ⟨legacyCall (a0 :: a1 :: ctx) ell, slot⟩) := by
  cases a1 <;> simp [Node.isIdent] at h <;>
    simp [handleNewError, legacyCall, Cursor.Node, index_one_cons]

/-- The second argument is `nil` and the message is a literal token. -/
theorem handleNewError_nil_lit {slot : Slot} (a0 : Node) (ctx : List Node) (ell : Bool)
    (h : a0.isBasicLit = true) :
    handleNewError ⟨legacyCall (a0 :: nilIdent :: ctx) ell, slot⟩
      = .ok { cont := true, modified := true, importReq := true,
              cursor := ⟨newCall "serrors" "New" (a0 :: ctx), slot⟩, stdout := [] } := by
  cases ctx <;> cases slot <;>
    simp [handleNewError, legacyCall, nilIdent, Cursor.Node, Cursor.Replace, index_one_cons,
      index_zero_cons, h, newCall, Node.isCall]

/-- The second argument is `nil`, the message is not a literal token and
there is no further argument; the place of the call takes the message. -/
theorem handleNewError_nil_unwrap {slot : Slot} (a0 : Node) (ell : Bool)
    (h : a0.isBasicLit = false) (hs : slot = .Expr ∨ a0.isCall = true) :
    handleNewError ⟨legacyCall [a0, nilIdent] ell, slot⟩
      = .ok { cont := true, modified := true, importReq := false, cursor := ⟨a0, slot⟩,
              stdout := if a0.isCompositeLit then ["composite lit:\n"] else [] } := by
  cases slot
  · simp [handleNewError, legacyCall, nilIdent, Cursor.Node, Cursor.Replace, index_one_cons,
      index_zero_cons, h]
  · have hc : a0.isCall = true := hs.elim (fun e => by cases e) id
    simp [handleNewError, legacyCall, nilIdent, Cursor.Node, Cursor.Replace, index_one_cons,
      index_zero_cons, h, hc]

/-- The unwrap, whenever the function returns. -/
theorem handleNewError_nil_unwrap_of_ok {slot : Slot} (a0 : Node) (ell : Bool) (r : Ret)
    (hb : a0.isBasicLit = false)
    (h : handleNewError ⟨legacyCall [a0, nilIdent] ell, slot⟩ = .ok r) :
    r = { cont := true, modified := true, importReq := false, cursor := ⟨a0, slot⟩,
          stdout := if a0.isCompositeLit then ["composite lit:\n"] else [] } := by
  cases slot
  · rw [handleNewError_nil_unwrap a0 ell hb (Or.inl rfl)] at h
    cases h
    rfl
  · cases hc : a0.isCall
    · simp [handleNewError, legacyCall, nilIdent, Cursor.Node, Cursor.Replace, index_one_cons,
        index_zero_cons, hb, hc] at h
    · rw [handleNewError_nil_unwrap a0 ell hb (Or.inr hc)] at h
      cases h
      rfl

/-- The second argument is `nil`, the message is neither a literal token nor
a call, there is no further argument, and the call sits in a place of type
`*ast.CallExpr`: `Replace` panics. -/
theorem handleNewError_nil_unwrap_panics (a0 : Node) (ell : Bool)
    (h : a0.isBasicLit = false) (hc : a0.isCall = false) :
    handleNewError ⟨legacyCall [a0, nilIdent] ell, .CallExpr⟩ = .error .notAssignable := by
  simp [handleNewError, legacyCall, nilIdent, Cursor.Node, Cursor.Replace, index_one_cons,
    index_zero_cons, h, hc]

/-- The second argument is `nil`, the message is not a literal token and
further arguments follow. -/
theorem handleNewError_nil_withCtx {slot : Slot} (a0 : Node) (ctx : List Node) (ell : Bool)
    (h : a0.isBasicLit = false) (hctx : ctx ≠ []) :
    handleNewError ⟨legacyCall (a0 :: nilIdent :: ctx) ell, slot⟩
      = .ok { cont := true, modified := true, importReq := true,
              cursor := ⟨newCall "serrors" "WithCtx" (a0 :: ctx), slot⟩,
              stdout := if a0.isCompositeLit then ["composite lit:\n"] else [] } := by
  cases ctx with
  | nil => exact absurd rfl hctx
  | cons c cs =>
    cases slot <;>
      simp [handleNewError, legacyCall, nilIdent, Cursor.Node, Cursor.Replace, index_one_cons,
        index_zero_cons, h, newCall, Node.isCall]

/-- The second argument is an identifier other than `nil`. -/
theorem handleNewError_ident {slot : Slot} (a0 : Node) (name : String) (ctx : List Node) (ell : Bool)
    (h : name ≠ "nil") :
    handleNewError ⟨legacyCall (a0 :: .Ident name :: ctx) ell, slot⟩
      = .ok { cont := true, modified := true, importReq := true,
              cursor := ⟨newCall "serrors" (if a0.isBasicLit then "WrapStr" else "Wrap")
                (a0 :: .Ident name :: ctx), slot⟩,
              stdout := [] } := by
  cases hb : a0.isBasicLit <;> cases slot <;>
    simp [handleNewError, legacyCall, Cursor.Node, Cursor.Replace, index_one_cons,
      index_zero_cons, h, hb, newCall, Node.isCall]

/-! ## The rewrite rules, case by case -/

/-- C1: a call `common.NewBasicError(msg, nil, ctx...)` whose message is a
string literal is replaced by `serrors.New(msg, ctx...)`: the method is `New`
and the arguments are the message followed by the context arguments in their
original order, whether or not there are any. -/
theorem handleNewError_new_of_string_literal {slot : Slot} (value : String) (ctx : List Node)
    (ell : Bool) :
    handleNewError ⟨legacyCall (.BasicLit .STRING value :: nilIdent :: ctx) ell, slot⟩
      = .ok { cont := true, modified := true, importReq := true,
              cursor := ⟨newCall "serrors" "New" (.BasicLit .STRING value :: ctx), slot⟩,
              stdout := [] } :=
  handleNewError_nil_lit (.BasicLit .STRING value) ctx ell rfl

/-- C2, as stated, fails: in `common.NewBasicError("boom", fmt.Errorf("x"))`
the second argument is a function call, not the literal `nil`, and the call is
left as it is instead of becoming `serrors.WrapStr("boom", fmt.Errorf("x"))`. -/
theorem handleNewError_call_as_error_not_wrapped :
    ∃ r, handleNewError
        ⟨legacyCall [.BasicLit .STRING "\"boom\"",
          .CallExpr (.SelectorExpr (.Ident "fmt") "Errorf") [.BasicLit .STRING "\"x\""] false]
          false, .Expr⟩ = .ok r
      ∧ r.modified = false
      ∧ r.cursor.node = legacyCall [.BasicLit .STRING "\"boom\"",
          .CallExpr (.SelectorExpr (.Ident "fmt") "Errorf") [.BasicLit .STRING "\"x\""] false]
          false
      ∧ r.cursor.node ≠ newCall "serrors" "WrapStr" [.BasicLit .STRING "\"boom\"",
          .CallExpr (.SelectorExpr (.Ident "fmt") "Errorf") [.BasicLit .STRING "\"x\""] false] :=
  ⟨_, handleNewError_nonIdent _ _ _ _ rfl, rfl, rfl, by simp [noMatch, legacyCall, newCall]⟩

/-- C2, amended: when the second argument of `common.NewBasicError(msg, e,
ctx...)` is an identifier other than `nil`, the call is replaced by a
`serrors` call with the arguments `[msg, e, ctx...]`, whose method is
`WrapStr` when `msg` is a string literal and `Wrap` when `msg` is not a
literal token; when the second argument is not an identifier at all (a
function call, a selector, a parenthesised expression, ...) nothing is
replaced and the function returns `(true, false, false)`. -/
theorem handleNewError_second_argument {slot : Slot} (msg e : Node) (ctx : List Node)
    (ell : Bool) :
    (∀ name, e = .Ident name → name ≠ "nil" →
      (∀ value, msg = .BasicLit .STRING value →
        handleNewError ⟨legacyCall (msg :: e :: ctx) ell, slot⟩
          = .ok { cont := true, modified := true, importReq := true,
                  cursor := ⟨newCall "serrors" "WrapStr" (msg :: e :: ctx), slot⟩, stdout := [] })
      ∧ (msg.isBasicLit = false →
        handleNewError ⟨legacyCall (msg :: e :: ctx) ell, slot⟩
          = .ok { cont := true, modified := true, importReq := true,
                  cursor := ⟨newCall "serrors" "Wrap" (msg :: e :: ctx), slot⟩, stdout := [] }))
    ∧ (e.isIdent = false →
        handleNewError ⟨legacyCall (msg :: e :: ctx) ell, slot⟩
          = .ok { cont := true, modified := false, importReq := false,
                  cursor := ⟨legacyCall (msg :: e :: ctx) ell, slot⟩, stdout := [] }) := by
  refine ⟨?_, fun h => handleNewError_nonIdent msg e ctx ell h⟩
  intro name he hname
  subst he
  refine ⟨?_, ?_⟩
  · intro value hmsg
    subst hmsg
    exact handleNewError_ident _ name ctx ell hname
  · intro hmsg
    have := @handleNewError_ident slot msg name ctx ell hname
    simpa [hmsg] using this

/-- A use of the amended C2 at `common.NewBasicError("boom", err, "k", v)`
and at `common.NewBasicError("boom", (err))`. -/
theorem handleNewError_second_argument_witness :
    handleNewError ⟨legacyCall [.BasicLit .STRING "\"boom\"", .Ident "err",
        .BasicLit .STRING "\"k\"", .Ident "v"] false, .Expr⟩
      = .ok { cont := true, modified := true, importReq := true,
              cursor := ⟨newCall "serrors" "WrapStr" [.BasicLit .STRING "\"boom\"", .Ident "err",
                .BasicLit .STRING "\"k\"", .Ident "v"], .Expr⟩, stdout := [] }
    ∧ handleNewError ⟨legacyCall [.BasicLit .STRING "\"boom\"", .ParenExpr (.Ident "err")] false, .Expr⟩
      = .ok { cont := true, modified := false, importReq := false,
              cursor := ⟨legacyCall [.BasicLit .STRING "\"boom\"", .ParenExpr (.Ident "err")]
                false, .Expr⟩, stdout := [] } :=
  ⟨((handleNewError_second_argument (.BasicLit .STRING "\"boom\"") (.Ident "err")
      [.BasicLit .STRING "\"k\"", .Ident "v"] false).1 "err" rfl (by decide)).1 "\"boom\"" rfl,
   (handleNewError_second_argument (.BasicLit .STRING "\"boom\"") (.ParenExpr (.Ident "err"))
      [] false).2 rfl⟩

/-- The unwrap: a call `common.NewBasicError(msg, nil)` with exactly two
arguments whose message is not a literal, sitting in a place that takes the
message (any place of type `ast.Expr`, or any place when the message is
itself a call), is replaced by the expression `msg`; no `serrors` call is
built and the file is reported as modified. -/
theorem handleNewError_unwrap {slot : Slot} (msg : Node) (ell : Bool)
    (h : msg.isBasicLit = false) (hs : slot = .Expr ∨ msg.isCall = true) :
    ∃ r, handleNewError ⟨legacyCall [msg, nilIdent] ell, slot⟩ = .ok r
      ∧ r.cursor.node = msg ∧ r.modified = true ∧ r.importReq = false ∧ r.cont = true :=
  ⟨_, handleNewError_nil_unwrap msg ell h hs, rfl, rfl, rfl, rfl⟩

/-- C3, on the code: in `defer common.NewBasicError(someVar, nil)` the call
has exactly two arguments and a message that is not a literal, and it sits
in the field `Call` of the `defer` statement, whose type is `*ast.CallExpr`.
`handleNewError` hands the identifier `someVar` to `Replace`, which panics:
the call is not replaced and nothing is returned, and the traversal of the
statement ends in that panic. -/
theorem handleNewError_unwrap_in_defer_panics :
    handleNewError ⟨legacyCall [.Ident "someVar", nilIdent] false, .CallExpr⟩
      = .error .notAssignable
    ∧ applyNode (.DeferStmt (legacyCall [.Ident "someVar", nilIdent] false)) .Expr Walk.start
      = .error .notAssignable :=
  ⟨handleNewError_nil_unwrap_panics _ _ rfl rfl, rfl⟩

/-- C4: a call `common.NewBasicError(msg, nil, ctx...)` whose message is not
a literal and which has at least one context argument is replaced by
`serrors.WithCtx(msg, ctx...)`, the arguments being the message followed by
the context arguments in their original order. -/
theorem handleNewError_withCtx {slot : Slot} (msg : Node) (ctx : List Node) (ell : Bool)
    (h : msg.isBasicLit = false) (hctx : ctx ≠ []) :
    ∃ r, handleNewError ⟨legacyCall (msg :: nilIdent :: ctx) ell, slot⟩ = .ok r
      ∧ r.cursor.node = newCall "serrors" "WithCtx" (msg :: ctx)
      ∧ r.modified = true ∧ r.importReq = true ∧ r.cont = true :=
  ⟨_, handleNewError_nil_withCtx msg ctx ell h hctx, rfl, rfl, rfl, rfl⟩

/-- A use of C4 at `common.NewBasicError(msgExpr, nil, "k", v)`. -/
theorem handleNewError_withCtx_witness :
    ∃ r, handleNewError
        ⟨legacyCall [.Ident "msgExpr", nilIdent, .BasicLit .STRING "\"k\"", .Ident "v"] false, .Expr⟩
        = .ok r
      ∧ r.cursor.node
        = newCall "serrors" "WithCtx" [.Ident "msgExpr", .BasicLit .STRING "\"k\"", .Ident "v"]
      ∧ r.modified = true ∧ r.importReq = true ∧ r.cont = true :=
  handleNewError_withCtx (.Ident "msgExpr") [.BasicLit .STRING "\"k\"", .Ident "v"] false rfl
    (by simp)

/-- C5, as stated, fails: `common.NewBasicError("boom", nil, "key", val)` is
replaced by `serrors.New("boom", "key", val)`, not by
`serrors.WithCtx("boom", "key", val)`. -/
theorem handleNewError_string_literal_with_ctx_not_withCtx :
    ∃ r, handleNewError
        ⟨legacyCall [.BasicLit .STRING "\"boom\"", nilIdent, .BasicLit .STRING "\"key\"",
          .Ident "val"] false, .Expr⟩ = .ok r
      ∧ r.cursor.node = newCall "serrors" "New"
          [.BasicLit .STRING "\"boom\"", .BasicLit .STRING "\"key\"", .Ident "val"]
      ∧ r.cursor.node ≠ newCall "serrors" "WithCtx"
          [.BasicLit .STRING "\"boom\"", .BasicLit .STRING "\"key\"", .Ident "val"] :=
  ⟨_, handleNewError_nil_lit _ _ _ rfl, rfl, by simp [newCall]⟩

/-- C5, amended: a call `common.NewBasicError(msg, nil, ctx...)` whose
message is a string literal and which has at least one context argument is
replaced by `serrors.New(msg, ctx...)`. -/
theorem handleNewError_new_with_ctx {slot : Slot} (value : String) (ctx : List Node)
    (ell : Bool) (_hctx : ctx ≠ []) :
    ∃ r, handleNewError ⟨legacyCall (.BasicLit .STRING value :: nilIdent :: ctx) ell, slot⟩
        = .ok r
      ∧ r.cursor.node = newCall "serrors" "New" (.BasicLit .STRING value :: ctx)
      ∧ r.modified = true ∧ r.importReq = true ∧ r.cont = true :=
  ⟨_, handleNewError_nil_lit _ ctx ell rfl, rfl, rfl, rfl, rfl⟩

/-- A use of the amended C5 at `common.NewBasicError("boom", nil, "key", val)`. -/
theorem handleNewError_new_with_ctx_witness :
    ∃ r, handleNewError
        ⟨legacyCall [.BasicLit .STRING "\"boom\"", nilIdent, .BasicLit .STRING "\"key\"",
          .Ident "val"] false, .Expr⟩ = .ok r
      ∧ r.cursor.node = newCall "serrors" "New"
          [.BasicLit .STRING "\"boom\"", .BasicLit .STRING "\"key\"", .Ident "val"]
      ∧ r.modified = true ∧ r.importReq = true ∧ r.cont = true :=
  handleNewError_new_with_ctx "\"boom\"" [.BasicLit .STRING "\"key\"", .Ident "val"] false
    (by simp)

/-- C6: a call `common.NewBasicError(msg, err, ctx...)` whose second argument
is an identifier other than `nil` is replaced by `serrors.WrapStr(msg, err,
ctx...)` when `msg` is a string literal and by `serrors.Wrap(msg, err,
ctx...)` when `msg` is not a literal; either way the new argument list is the
original one, element for element. -/
theorem handleNewError_wrap {slot : Slot} (msg : Node) (name : String) (ctx : List Node)
    (ell : Bool) (hname : name ≠ "nil") :
    ∃ r, handleNewError ⟨legacyCall (msg :: .Ident name :: ctx) ell, slot⟩ = .ok r
      ∧ ((∃ value, msg = .BasicLit .STRING value) →
          r.cursor.node = newCall "serrors" "WrapStr" (msg :: .Ident name :: ctx))
      ∧ (msg.isBasicLit = false →
          r.cursor.node = newCall "serrors" "Wrap" (msg :: .Ident name :: ctx))
      ∧ r.modified = true ∧ r.importReq = true ∧ r.cont = true := by
  refine ⟨_, handleNewError_ident msg name ctx ell hname, ?_, ?_, rfl, rfl, rfl⟩
  · rintro ⟨value, rfl⟩
    rfl
  · intro h
    simp [h]

/-- A use of C6 at `common.NewBasicError(msgExpr, err, "k", v)`, which
becomes `serrors.Wrap(msgExpr, err, "k", v)`. -/
theorem handleNewError_wrap_witness :
    ∃ r, handleNewError
        ⟨legacyCall [.Ident "msgExpr", .Ident "err", .BasicLit .STRING "\"k\"", .Ident "v"]
          false, .Expr⟩ = .ok r
      ∧ r.cursor.node = newCall "serrors" "Wrap"
          [.Ident "msgExpr", .Ident "err", .BasicLit .STRING "\"k\"", .Ident "v"] := by
  obtain ⟨r, hr, _, hwrap, _⟩ :=
    handleNewError_wrap (.Ident "msgExpr") "err" [.BasicLit .STRING "\"k\"", .Ident "v"] false
      (by decide)
  exact ⟨r, hr, hwrap rfl⟩

/-- C7, as stated, fails: `common.NewBasicError("boom", io.EOF)` has the
callee `common.NewBasicError` and two arguments, yet it resolves to "no
match": nothing is replaced and the function returns `(true, false, false)`. -/
theorem handleNewError_matched_call_no_action :
    ∃ r, handleNewError
        ⟨legacyCall [.BasicLit .STRING "\"boom\"", .SelectorExpr (.Ident "io") "EOF"] false, .Expr⟩
        = .ok r
      ∧ r.cont = true ∧ r.modified = false ∧ r.importReq = false
      ∧ r.cursor.node
        = legacyCall [.BasicLit .STRING "\"boom\"", .SelectorExpr (.Ident "io") "EOF"] false :=
  ⟨_, handleNewError_nonIdent _ _ _ _ rfl, rfl, rfl, rfl, rfl⟩

/-- C7, amended: a call whose callee is `common.NewBasicError` and which has
at least two arguments, the second of them an identifier, resolves to exactly
one rewrite action and never to "no match": the file is reported as modified
and either the node is now a `serrors` call with exactly one of the methods
`New`, `WithCtx`, `WrapStr`, `Wrap` (import requested), or it is the message
argument (unwrap, no import requested). One case is left aside: the unwrap
of a call that is the call of a `defer` or `go` statement, when the message
is not itself a call. When the second argument is not an identifier the call
resolves to "no match". -/
theorem handleNewError_total_on_identifier {slot : Slot} (a0 a1 : Node) (ctx : List Node)
    (ell : Bool) :
    (a1.isIdent = true →
      (slot = .Expr ∨ a0.isBasicLit = true ∨ a1 ≠ nilIdent ∨ ctx ≠ [] ∨ a0.isCall = true) →
      ∃ r, handleNewError ⟨legacyCall (a0 :: a1 :: ctx) ell, slot⟩ = .ok r
        ∧ r.cont = true ∧ r.modified = true
        ∧ ((r.importReq = true
              ∧ ∃! method, method ∈ ["New", "WithCtx", "WrapStr", "Wrap"]
                  ∧ ∃ newArgs, r.cursor.node = newCall "serrors" method newArgs)
            ∨ (r.importReq = false ∧ r.cursor.node = a0)))
    ∧ (a1.isIdent = false →
      handleNewError ⟨legacyCall (a0 :: a1 :: ctx) ell, slot⟩
        = .ok (noMatch ⟨legacyCall (a0 :: a1 :: ctx) ell, slot⟩)) := by
  refine ⟨?_, fun h => handleNewError_nonIdent a0 a1 ctx ell h⟩
  intro h hs
  have uniq : ∀ (m : String) (as : List Node), m ∈ ["New", "WithCtx", "WrapStr", "Wrap"] →
      ∃! method, method ∈ ["New", "WithCtx", "WrapStr", "Wrap"]
        ∧ ∃ newArgs, (⟨newCall "serrors" m as, slot⟩ : Cursor).node
            = newCall "serrors" method newArgs := by
    intro m as hm
    refine ⟨m, ⟨hm, as, rfl⟩, ?_⟩
    rintro y ⟨_, bs, hy⟩
    simp only [newCall, Node.CallExpr.injEq, Node.SelectorExpr.injEq] at hy
    exact hy.1.2.symm
  cases a1 with
  | Ident name =>
    by_cases hname : name = "nil"
    · subst hname
      cases hb : a0.isBasicLit
      · cases ctx with
        | nil =>
          have hs1 : slot = .Expr ∨ a0.isCall = true := by
            rcases hs with hs | hs | hs | hs | hs
            · exact Or.inl hs
            · simp [hb] at hs
            · exact absurd rfl hs
            · exact absurd rfl hs
            · exact Or.inr hs
          exact ⟨_, handleNewError_nil_unwrap a0 ell hb hs1, rfl, rfl, Or.inr ⟨rfl, rfl⟩⟩
        | cons c cs =>
          exact ⟨_, handleNewError_nil_withCtx a0 (c :: cs) ell hb (by simp), rfl, rfl,
            Or.inl ⟨rfl, uniq _ _ (by simp)⟩⟩
      · exact ⟨_, handleNewError_nil_lit a0 ctx ell hb, rfl, rfl, Or.inl ⟨rfl, uniq _ _ (by simp)⟩⟩
    · refine ⟨_, handleNewError_ident a0 name ctx ell hname, rfl, rfl, Or.inl ⟨rfl, uniq _ _ ?_⟩⟩
      cases a0.isBasicLit <;> simp
  | _ => simp [Node.isIdent] at h

/-- A use of the amended C7 at `common.NewBasicError(someVar, nil)` (unwrap)
and at `common.NewBasicError("boom", (err))` (no match). -/
theorem handleNewError_total_on_identifier_witness :
    (∃ r, handleNewError ⟨legacyCall [.Ident "someVar", .Ident "nil"] false, .Expr⟩ = .ok r
        ∧ r.cont = true ∧ r.modified = true
        ∧ ((r.importReq = true
              ∧ ∃! method, method ∈ ["New", "WithCtx", "WrapStr", "Wrap"]
                  ∧ ∃ newArgs, r.cursor.node = newCall "serrors" method newArgs)
            ∨ (r.importReq = false ∧ r.cursor.node = .Ident "someVar")))
    ∧ handleNewError
          ⟨legacyCall [.BasicLit .STRING "\"boom\"", .ParenExpr (.Ident "err")] false, .Expr⟩
        = .ok (noMatch
            ⟨legacyCall [.BasicLit .STRING "\"boom\"", .ParenExpr (.Ident "err")] false, .Expr⟩) :=
  ⟨(handleNewError_total_on_identifier (.Ident "someVar") (.Ident "nil") [] false).1 rfl
      (Or.inl rfl),
   (handleNewError_total_on_identifier (.BasicLit .STRING "\"boom\"") (.ParenExpr (.Ident "err"))
      [] false).2 rfl⟩

/-- C8, on the code: `common.NewBasicError(g())`, a call with a single
argument, makes `handleNewError` panic in the index expression `ce.Args[1]`
instead of returning `(true, false, false)`. -/
theorem handleNewError_one_argument_panics :
    handleNewError ⟨legacyCall [.CallExpr (.Ident "g") [] false] false, .Expr⟩
      = .error (.indexOutOfRange 1 1) :=
  handleNewError_short _ _ (by decide)

/-- C9: a node that is not a call expression, or a call whose function is not
a selector expression, or whose selector receiver is not the identifier
`common`, or whose selected name is not `NewBasicError`, is left as it is:
nothing is replaced and the function returns `(true, false, false)`. -/
theorem handleNewError_frame (cursor : Cursor)
    (h : (∀ f args ell, cursor.node ≠ .CallExpr f args ell)
      ∨ (∃ f args ell, cursor.node = .CallExpr f args ell ∧ ∀ x sel, f ≠ .SelectorExpr x sel)
      ∨ (∃ x sel args ell, cursor.node = .CallExpr (.SelectorExpr x sel) args ell
          ∧ x ≠ .Ident "common")
      ∨ (∃ x sel args ell, cursor.node = .CallExpr (.SelectorExpr x sel) args ell
          ∧ sel ≠ "NewBasicError")) :
    handleNewError cursor
      = .ok { cont := true, modified := false, importReq := false, cursor := cursor,
              stdout := [] } := by
  obtain ⟨n, slot⟩ := cursor
  rcases h with h | ⟨f, args, ell, hn, hf⟩ | ⟨x, sel, args, ell, hn, hx⟩
    | ⟨x, sel, args, ell, hn, hsel⟩
  · cases n <;> first | rfl | exact absurd rfl (h _ _ _)
  · simp only at hn
    subst hn
    cases f <;> first | rfl | exact absurd rfl (hf _ _)
  · simp only at hn
    subst hn
    cases x with
    | Ident name =>
      have : name ≠ "common" := fun hc => hx (by rw [hc])
      simp [handleNewError, Cursor.Node, this, noMatch]
    | _ => rfl
  · simp only at hn
    subst hn
    cases x with
    | Ident name =>
      by_cases hc : name = "common"
      · simp [handleNewError, Cursor.Node, hc, hsel, noMatch]
      · simp [handleNewError, Cursor.Node, hc, noMatch]
    | _ => rfl

/-- A use of C9 at the call `serrors.New("boom")`, whose receiver is not
`common`. -/
theorem handleNewError_frame_witness :
    handleNewError ⟨newCall "serrors" "New" [.BasicLit .STRING "\"boom\""], .Expr⟩
      = .ok { cont := true, modified := false, importReq := false,
              cursor := ⟨newCall "serrors" "New" [.BasicLit .STRING "\"boom\""], .Expr⟩,
              stdout := [] } :=
  handleNewError_frame ⟨newCall "serrors" "New" [.BasicLit .STRING "\"boom\""], .Expr⟩
    (Or.inr (Or.inr (Or.inl ⟨.Ident "serrors", "New", [.BasicLit .STRING "\"boom\""], false,
      rfl, by simp⟩)))

/-- C10: when `handleNewError` rewrites a call of `common.NewBasicError` into
a `serrors` call (the run that requests the import), the new argument list is
the original one without its second argument when that argument is the
literal `nil`, and the original one unchanged otherwise; so the context
arguments `args[2:]` are a suffix of the new list, unmodified and in the same
order. -/
theorem handleNewError_args_preserved {slot : Slot} (args : List Node) (ell : Bool) (r : Ret)
    (h : handleNewError ⟨legacyCall args ell, slot⟩ = .ok r) (hreq : r.importReq = true) :
    ∃ method newArgs, r.cursor.node = newCall "serrors" method newArgs
      ∧ (args[1]? = some nilIdent → newArgs = args.eraseIdx 1)
      ∧ (args[1]? ≠ some nilIdent → newArgs = args)
      ∧ args.drop 2 <:+ newArgs := by
  match args, h with
  | [], h => simp [handleNewError_short [] ell (by decide)] at h
  | [a], h => simp [handleNewError_short [a] ell (by simp)] at h
  | a0 :: a1 :: ctx, h =>
    cases hid : a1.isIdent
    · rw [handleNewError_nonIdent a0 a1 ctx ell hid] at h
      cases h
      simp [noMatch] at hreq
    · cases a1 with
      | Ident name =>
        by_cases hname : name = "nil"
        · subst hname
          cases hb : a0.isBasicLit
          · cases ctx with
            | nil =>
              rw [handleNewError_nil_unwrap_of_ok a0 ell r hb h] at hreq
              simp at hreq
            | cons c cs =>
              rw [show Node.Ident "nil" = nilIdent from rfl,
                handleNewError_nil_withCtx a0 (c :: cs) ell hb (by simp)] at h
              cases h
              exact ⟨"WithCtx", a0 :: c :: cs, rfl, fun _ => rfl,
                fun hne => (hne (by simp [nilIdent])).elim, List.suffix_cons _ _⟩
          · rw [show Node.Ident "nil" = nilIdent from rfl, handleNewError_nil_lit a0 ctx ell hb]
              at h
            cases h
            exact ⟨"New", a0 :: ctx, rfl, fun _ => rfl, fun hne => (hne (by simp [nilIdent])).elim,
              List.suffix_cons _ _⟩
        · rw [handleNewError_ident a0 name ctx ell hname] at h
          cases h
          refine ⟨_, a0 :: .Ident name :: ctx, rfl, ?_, fun _ => rfl, ?_⟩
          · intro hnil
            simp [nilIdent] at hnil
            exact absurd hnil hname
          · exact (List.suffix_cons _ _).trans (List.suffix_cons _ _)
      | _ => simp [Node.isIdent] at hid

/-- A use of C10 at `common.NewBasicError("boom", nil, "key", val)`. -/
theorem handleNewError_args_preserved_witness :
    ∃ method newArgs,
      newCall "serrors" "New"
          [.BasicLit .STRING "\"boom\"", .BasicLit .STRING "\"key\"", .Ident "val"]
        = newCall "serrors" method newArgs
      ∧ newArgs = [.BasicLit .STRING "\"boom\"", .BasicLit .STRING "\"key\"", .Ident "val"]
      ∧ [.BasicLit .STRING "\"key\"", .Ident "val"] <:+ newArgs := by
  obtain ⟨method, newArgs, hnode, hnil, _, hsuffix⟩ :=
    handleNewError_args_preserved
      [.BasicLit .STRING "\"boom\"", nilIdent, .BasicLit .STRING "\"key\"", .Ident "val"] false
      { cont := true, modified := true, importReq := true,
        cursor := ⟨newCall "serrors" "New"
          [.BasicLit .STRING "\"boom\"", .BasicLit .STRING "\"key\"", .Ident "val"], .Expr⟩,
        stdout := [] }
      (handleNewError_nil_lit _ _ _ rfl) rfl
  exact ⟨method, newArgs, hnode, hnil rfl, hsuffix⟩

/-! ## Every result of `handleNewError` -/

/-- A node that is not a call of `common.NewBasicError` is not matched. -/
theorem handleNewError_noMatch_or_legacy (c : Cursor) :
    handleNewError c = .ok (noMatch c) ∨ ∃ args ell, c.node = legacyCall args ell := by
  obtain ⟨n, slot⟩ := c
  cases n with
  | CallExpr f args ell =>
    cases f with
    | SelectorExpr x sel =>
      cases x with
      | Ident name =>
        by_cases hc : name = "common"
        · by_cases hs : sel = "NewBasicError"
          · subst hc
            subst hs
            exact Or.inr ⟨args, ell, rfl⟩
          · exact Or.inl (by simp [handleNewError, Cursor.Node, hc, hs])
        · exact Or.inl (by simp [handleNewError, Cursor.Node, hc])
      | _ => exact Or.inl rfl
    | _ => exact Or.inl rfl
  | _ => exact Or.inl rfl

/-- A call built on `serrors` is not matched. -/
theorem handleNewError_serrors {slot : Slot} (method : String) (args : List Node) :
    handleNewError ⟨newCall "serrors" method args, slot⟩
      = .ok (noMatch ⟨newCall "serrors" method args, slot⟩) := by
  simp [handleNewError, newCall, Cursor.Node]

/-- The three kinds of result: no match, the unwrap, a new `serrors` call. -/
theorem handleNewError_shape (c : Cursor) (r : Ret) (h : handleNewError c = .ok r) :
    r = noMatch c
    ∨ (∃ msg ell, c.node = legacyCall [msg, nilIdent] ell ∧ msg.isBasicLit = false
        ∧ r = { cont := true, modified := true, importReq := false, cursor := ⟨msg, c.slot⟩,
                stdout := if msg.isCompositeLit then ["composite lit:\n"] else [] })
    ∨ (∃ method newArgs out, method ∈ ["New", "WithCtx", "WrapStr", "Wrap"]
        ∧ (∃ args ell, c.node = legacyCall args ell)
        ∧ r = { cont := true, modified := true, importReq := true,
                cursor := ⟨newCall "serrors" method newArgs, c.slot⟩, stdout := out }) := by
  rcases handleNewError_noMatch_or_legacy c with hno | ⟨args, ell, hc⟩
  · rw [hno] at h
    cases h
    exact Or.inl rfl
  · obtain ⟨n, slot⟩ := c
    simp only at hc
    subst hc
    match args, h with
    | [], h => simp [handleNewError_short [] ell (by decide)] at h
    | [a], h => simp [handleNewError_short [a] ell (by simp)] at h
    | a0 :: a1 :: ctx, h =>
      cases hid : a1.isIdent
      · rw [handleNewError_nonIdent a0 a1 ctx ell hid] at h
        cases h
        exact Or.inl rfl
      · cases a1 with
        | Ident name =>
          by_cases hname : name = "nil"
          · subst hname
            cases hb : a0.isBasicLit
            · cases ctx with
              | nil =>
                exact Or.inr (Or.inl ⟨a0, ell, rfl, hb,
                  handleNewError_nil_unwrap_of_ok a0 ell r hb h⟩)
              | cons x xs =>
                rw [show Node.Ident "nil" = nilIdent from rfl,
                  handleNewError_nil_withCtx a0 (x :: xs) ell hb (by simp)] at h
                cases h
                exact Or.inr (Or.inr ⟨"WithCtx", _, _, by simp, ⟨_, _, rfl⟩, rfl⟩)
            · rw [show Node.Ident "nil" = nilIdent from rfl,
                handleNewError_nil_lit a0 ctx ell hb] at h
              cases h
              exact Or.inr (Or.inr ⟨"New", _, _, by simp, ⟨_, _, rfl⟩, rfl⟩)
          · rw [handleNewError_ident a0 name ctx ell hname] at h
            cases h
            refine Or.inr (Or.inr ⟨_, _, _, ?_, ⟨_, _, rfl⟩, rfl⟩)
            cases a0.isBasicLit <;> simp
        | _ => simp [Node.isIdent] at hid

/-- The function returns on every node that is not a call of
`common.NewBasicError`, and on such a call when it has at least two arguments
and is not to be unwrapped in a place that does not take its message. -/
theorem handleNewError_returns (c : Cursor)
    (h : ∀ args ell, c.node = legacyCall args ell → 2 ≤ args.length)
    (hs : c.slot = .Expr
      ∨ ∀ msg ell, c.node = legacyCall [msg, nilIdent] ell →
          msg.isBasicLit = true ∨ msg.isCall = true) :
    ∃ r, handleNewError c = .ok r := by
  rcases handleNewError_noMatch_or_legacy c with hno | ⟨args, ell, hc⟩
  · exact ⟨_, hno⟩
  · have hlen := h args ell hc
    obtain ⟨n, slot⟩ := c
    simp only at hc
    subst hc
    match args, hlen with
    | a0 :: a1 :: ctx, _ =>
      cases hid : a1.isIdent
      · exact ⟨_, handleNewError_nonIdent a0 a1 ctx ell hid⟩
      · cases a1 with
        | Ident name =>
          by_cases hname : name = "nil"
          · subst hname
            cases hb : a0.isBasicLit
            · cases ctx with
              | nil =>
                refine ⟨_, handleNewError_nil_unwrap a0 ell hb ?_⟩
                rcases hs with hs | hs
                · exact Or.inl hs
                · rcases hs a0 ell rfl with h1 | h1
                  · simp [hb] at h1
                  · exact Or.inr h1
              | cons x xs => exact ⟨_, handleNewError_nil_withCtx a0 (x :: xs) ell hb (by simp)⟩
            · exact ⟨_, handleNewError_nil_lit a0 ctx ell hb⟩
          · exact ⟨_, handleNewError_ident a0 name ctx ell hname⟩
        | _ => simp [Node.isIdent] at hid

/-! ## The message argument -/

/-- C14, as stated, fails twice. `common.NewBasicError(T{}, nil)`, whose
message is a composite literal, prints the note but is replaced by `T{}`
itself, not by a `WithCtx` call; and `common.NewBasicError(T{}, err)` becomes
`serrors.Wrap(T{}, err)` with nothing printed. -/
theorem handleNewError_composite_literal_not_as_claimed :
    (∃ r, handleNewError
          ⟨legacyCall [.CompositeLit (some (.Ident "T")) [], nilIdent] false, .Expr⟩ = .ok r
      ∧ r.stdout = ["composite lit:\n"]
      ∧ r.cursor.node = .CompositeLit (some (.Ident "T")) []
      ∧ r.cursor.node ≠ newCall "serrors" "WithCtx" [.CompositeLit (some (.Ident "T")) []])
    ∧ (∃ r, handleNewError
          ⟨legacyCall [.CompositeLit (some (.Ident "T")) [], .Ident "err"] false, .Expr⟩ = .ok r
      ∧ r.cursor.node
          = newCall "serrors" "Wrap" [.CompositeLit (some (.Ident "T")) [], .Ident "err"]
      ∧ r.stdout = []) :=
  ⟨⟨_, handleNewError_nil_unwrap _ _ rfl (Or.inl rfl), rfl, rfl, by simp [newCall]⟩,
   ⟨_, handleNewError_ident _ "err" [] false (by decide), rfl, rfl⟩⟩

/-- C14, amended: for a call of `common.NewBasicError` whose message is a
composite literal and whose second argument is the literal `nil`, the note is
printed and a rewrite is still applied: `WithCtx` when context arguments
follow, the unwrap (the call becomes the message) when there are exactly two
arguments and the call sits in a place of type `ast.Expr` (it is not the call
of a `defer` or `go` statement). When the second argument is an identifier
other than `nil`, the rewrite `Wrap` is applied. -/
theorem handleNewError_composite_literal {slot : Slot} (typ : Option Node)
    (elts ctx : List Node) (ell : Bool) :
    (ctx ≠ [] →
      handleNewError ⟨legacyCall (.CompositeLit typ elts :: nilIdent :: ctx) ell, slot⟩
        = .ok { cont := true, modified := true, importReq := true,
                cursor := ⟨newCall "serrors" "WithCtx" (.CompositeLit typ elts :: ctx), slot⟩,
                stdout := ["composite lit:\n"] })
    ∧ (slot = .Expr →
      handleNewError ⟨legacyCall [.CompositeLit typ elts, nilIdent] ell, slot⟩
        = .ok { cont := true, modified := true, importReq := false,
                cursor := ⟨.CompositeLit typ elts, slot⟩, stdout := ["composite lit:\n"] })
    ∧ (∀ name, name ≠ "nil" →
        ∃ r, handleNewError
              ⟨legacyCall (.CompositeLit typ elts :: .Ident name :: ctx) ell, slot⟩ = .ok r
          ∧ r.modified = true
          ∧ r.cursor.node
            = newCall "serrors" "Wrap" (.CompositeLit typ elts :: .Ident name :: ctx)) :=
  ⟨fun hctx => handleNewError_nil_withCtx _ ctx ell rfl hctx,
   fun hs => handleNewError_nil_unwrap _ ell rfl (Or.inl hs),
   fun name hname => ⟨_, handleNewError_ident _ name ctx ell hname, rfl, rfl⟩⟩

/-- A use of the amended C14 at `common.NewBasicError(T{}, nil, "k", v)`. -/
theorem handleNewError_composite_literal_witness :
    handleNewError
        ⟨legacyCall [.CompositeLit (some (.Ident "T")) [], nilIdent, .BasicLit .STRING "\"k\"",
          .Ident "v"] false, .Expr⟩
      = .ok { cont := true, modified := true, importReq := true,
              cursor := ⟨newCall "serrors" "WithCtx"
                [.CompositeLit (some (.Ident "T")) [], .BasicLit .STRING "\"k\"", .Ident "v"],
                .Expr⟩,
              stdout := ["composite lit:\n"] } :=
  (handleNewError_composite_literal (some (.Ident "T")) []
    [.BasicLit .STRING "\"k\"", .Ident "v"] false).1 (by simp)

/-- C15, as stated, fails: in `common.NewBasicError(42, err)` the message is
an integer literal, not a string literal, and is classified like a string
literal all the same: the call becomes `serrors.WrapStr(42, err)`, not
`serrors.Wrap(42, err)`. -/
theorem handleNewError_integer_literal_as_string :
    ∃ r, handleNewError ⟨legacyCall [.BasicLit .INT "42", .Ident "err"] false, .Expr⟩ = .ok r
      ∧ r.cursor.node = newCall "serrors" "WrapStr" [.BasicLit .INT "42", .Ident "err"]
      ∧ r.cursor.node ≠ newCall "serrors" "Wrap" [.BasicLit .INT "42", .Ident "err"] :=
  ⟨_, handleNewError_ident _ "err" [] false (by decide), rfl,
    by simp [newCall, Node.isBasicLit]⟩

/-- C15, amended: in a call of `common.NewBasicError` whose second argument
is an identifier, the message is classified as a string literal when it is a
string literal token (the method is then `New` or `WrapStr`), and as
non-literal when it is not a literal token at all, as an identifier, a
composite literal or a function call is (the action is then `Wrap`,
`WithCtx` or the unwrap, never `WrapStr` or `New`). One case is left aside:
the unwrap of a call that is the call of a `defer` or `go` statement, when
the message is not itself a call. -/
theorem handleNewError_message_kind {slot : Slot} (msg : Node) (name : String)
    (ctx : List Node) (ell : Bool) :
    ((∃ value, msg = .BasicLit .STRING value) →
      ∃ r, handleNewError ⟨legacyCall (msg :: .Ident name :: ctx) ell, slot⟩ = .ok r
        ∧ r.importReq = true
        ∧ r.cursor.node
          = if name = "nil" then newCall "serrors" "New" (msg :: ctx)
            else newCall "serrors" "WrapStr" (msg :: .Ident name :: ctx))
    ∧ (msg.isBasicLit = false →
      (slot = .Expr ∨ name ≠ "nil" ∨ ctx ≠ [] ∨ msg.isCall = true) →
      ∃ r, handleNewError ⟨legacyCall (msg :: .Ident name :: ctx) ell, slot⟩ = .ok r
        ∧ r.importReq = (!(decide (name = "nil") && ctx.isEmpty))
        ∧ r.cursor.node
          = if name = "nil" then
              (if ctx.isEmpty then msg else newCall "serrors" "WithCtx" (msg :: ctx))
            else newCall "serrors" "Wrap" (msg :: .Ident name :: ctx)) := by
  constructor
  · rintro ⟨value, rfl⟩
    by_cases hname : name = "nil"
    · subst hname
      exact ⟨_, handleNewError_nil_lit _ ctx ell rfl, rfl, by simp⟩
    · exact ⟨_, handleNewError_ident _ name ctx ell hname, rfl, by simp [hname, Node.isBasicLit]⟩
  · intro hb hs
    by_cases hname : name = "nil"
    · subst hname
      cases ctx with
      | nil =>
        have hs1 : slot = .Expr ∨ msg.isCall = true := by
          rcases hs with hs | hs | hs | hs
          · exact Or.inl hs
          · exact absurd rfl hs
          · exact absurd rfl hs
          · exact Or.inr hs
        exact ⟨_, handleNewError_nil_unwrap msg ell hb hs1, by simp, by simp⟩
      | cons x xs =>
        exact ⟨_, handleNewError_nil_withCtx msg (x :: xs) ell hb (by simp), by simp, by simp⟩
    · exact ⟨_, handleNewError_ident msg name ctx ell hname, by simp [hname], by simp [hname, hb]⟩

/-- A use of the amended C15 at `common.NewBasicError(ErrConst, err)`, whose
message is an identifier naming a constant. -/
theorem handleNewError_message_kind_witness :
    ∃ r, handleNewError ⟨legacyCall [.Ident "ErrConst", .Ident "err"] false, .Expr⟩ = .ok r
      ∧ r.cursor.node = newCall "serrors" "Wrap" [.Ident "ErrConst", .Ident "err"] := by
  obtain ⟨r, hr, _, hnode⟩ :=
    (handleNewError_message_kind (.Ident "ErrConst") "err" [] false).2 rfl (Or.inl rfl)
  exact ⟨r, hr, by simpa using hnode⟩

/-! ## The returned flags -/

/-- C17: every result of `handleNewError` is of one of three kinds. Either
the node was replaced by a new call on `serrors` (method `New`, `WithCtx`,
`WrapStr` or `Wrap`): then the import flag is true, and so is the modified
flag. Or it is the unwrap (the call `common.NewBasicError(msg, nil)` became
`msg`): modified is true and import is false. Or it is no match: both are
false and the cursor is unchanged. So the import flag is true exactly for the
first kind, and import implies modified. -/
theorem handleNewError_flags (c : Cursor) (r : Ret) (h : handleNewError c = .ok r) :
    ((r.importReq = true ∧ r.modified = true
        ∧ c.node.isLegacyCall = true
        ∧ ∃ method newArgs, method ∈ ["New", "WithCtx", "WrapStr", "Wrap"]
            ∧ r.cursor.node = newCall "serrors" method newArgs)
      ∨ (r.importReq = false ∧ r.modified = true
        ∧ ∃ msg ell, c.node = legacyCall [msg, nilIdent] ell ∧ r.cursor.node = msg)
      ∨ (r.importReq = false ∧ r.modified = false ∧ r.cursor = c))
    ∧ (r.importReq = true → r.modified = true) := by
  rcases handleNewError_shape c r h with hr | ⟨msg, ell, hc, _, hr⟩
    | ⟨method, newArgs, out, hm, ⟨args, ell, hc⟩, hr⟩
  · subst hr
    exact ⟨Or.inr (Or.inr ⟨rfl, rfl, rfl⟩), by simp [noMatch]⟩
  · subst hr
    exact ⟨Or.inr (Or.inl ⟨rfl, rfl, msg, ell, hc, rfl⟩), by simp⟩
  · subst hr
    refine ⟨Or.inl ⟨rfl, rfl, ?_, method, newArgs, hm, rfl⟩, by simp⟩
    rw [hc]
    simp [legacyCall, Node.isLegacyCall]

/-- A use of C17 at `common.NewBasicError(someVar, nil)`, the unwrap: it
is not of the first kind and not of the third. -/
theorem handleNewError_flags_witness :
    ∃ r, handleNewError ⟨legacyCall [.Ident "someVar", nilIdent] false, .Expr⟩ = .ok r
      ∧ r.importReq = false ∧ r.modified = true
      ∧ ∃ msg ell, legacyCall [.Ident "someVar", nilIdent] false = legacyCall [msg, nilIdent] ell
          ∧ r.cursor.node = msg := by
  have h := @handleNewError_nil_unwrap .Expr (.Ident "someVar") false rfl (Or.inl rfl)
  rcases (handleNewError_flags _ _ h).1 with h1 | h2 | h3
  · exact absurd h1.1 (by simp)
  · exact ⟨_, h, h2⟩
  · exact absurd h3.2.1 (by simp)

/-- Whenever the function returns, its first result is true. -/
theorem handleNewError_cont_of_ok (c : Cursor) (r : Ret) (h : handleNewError c = .ok r) :
    r.cont = true := by
  rcases handleNewError_shape c r h with hr | ⟨_, _, _, _, hr⟩ | ⟨_, _, _, _, _, hr⟩ <;>
    subst hr <;> rfl

/-- C18, on the code: in a block holding `go common.NewBasicError(errMsg,
nil)` followed by `common.NewBasicError("boom", nil)`, `handleNewError` has
no first result on the call of the `go` statement: it is to be replaced by
`errMsg`, `Replace` panics on the field `Call` of type `*ast.CallExpr`, and
the traversal ends there, before the statement that follows is visited. -/
theorem applyNode_replacement_stops_traversal :
    handleNewError ⟨legacyCall [.Ident "errMsg", nilIdent] false, .CallExpr⟩
      = .error .notAssignable
    ∧ applyNode
        (.Other "BlockStmt"
          [.GoStmt (legacyCall [.Ident "errMsg", nilIdent] false),
           .Other "ExprStmt" [legacyCall [.BasicLit .STRING "\"boom\"", nilIdent] false]])
        .Expr Walk.start
      = .error .notAssignable :=
  ⟨handleNewError_nil_unwrap_panics _ _ rfl rfl, rfl⟩

/-- C19: when `handleNewError` has rewritten a call into a `serrors` call
(the result that requests the import), running it on the replacement node
gives no match: nothing is replaced, modified and import are false. -/
theorem handleNewError_replacement_not_rematched (c : Cursor) (r : Ret)
    (h : handleNewError c = .ok r) (hreq : r.importReq = true) :
    handleNewError r.cursor
      = .ok { cont := true, modified := false, importReq := false, cursor := r.cursor,
              stdout := [] } := by
  rcases handleNewError_shape c r h with hr | ⟨_, _, _, _, hr⟩ | ⟨method, newArgs, _, _, _, hr⟩
  · subst hr
    simp [noMatch] at hreq
  · subst hr
    simp at hreq
  · subst hr
    exact handleNewError_serrors method newArgs

/-- A use of C19 at `common.NewBasicError("boom", nil)`: its replacement
`serrors.New("boom")` is not matched. -/
theorem handleNewError_replacement_not_rematched_witness :
    handleNewError ⟨newCall "serrors" "New" [.BasicLit .STRING "\"boom\""], .Expr⟩
      = .ok { cont := true, modified := false, importReq := false,
              cursor := ⟨newCall "serrors" "New" [.BasicLit .STRING "\"boom\""], .Expr⟩,
              stdout := [] } :=
  handleNewError_replacement_not_rematched
    ⟨legacyCall [.BasicLit .STRING "\"boom\"", nilIdent] false, .Expr⟩
    { cont := true, modified := true, importReq := true,
      cursor := ⟨newCall "serrors" "New" [.BasicLit .STRING "\"boom\""], .Expr⟩, stdout := [] }
    (handleNewError_nil_lit _ [] false rfl) rfl

/-! ## The traversal of a file -/

theorem Walk.start_sound : Walk.start.Sound := by
  simp [Walk.Sound, Walk.start]

theorem post_sound (n : Node) (slot : Slot) (w : Walk) (n1 : Node) (w1 : Walk)
    (h : post n slot w = .ok (n1, w1)) (hs : w.Sound) : w1.Sound := by
  unfold post at h
  split at h
  · cases h
    exact hs
  · split at h
    · cases h
    · rename_i r hr
      cases h
      obtain ⟨h1, h2, h3⟩ := hs
      refine ⟨?_, ?_, ?_⟩
      · simp [h1]
      · simp [h2]
      · intro r1 hr1
        simp only [List.mem_append, List.mem_singleton] at hr1
        rcases hr1 with hr1 | hr1
        · exact h3 r1 hr1
        · exact ⟨_, hr1 ▸ hr⟩

mutual
theorem applyNode_sound : ∀ (n : Node) (slot : Slot) (w : Walk) (n1 : Node) (w1 : Walk),
    applyNode n slot w = .ok (n1, w1) → w.Sound → w1.Sound
  | .Ident _, slot, w, n1, w1, h, hs => by
    rw [applyNode] at h
    exact post_sound _ _ _ _ _ h hs
  | .BasicLit _ _, slot, w, n1, w1, h, hs => by
    rw [applyNode] at h
    exact post_sound _ _ _ _ _ h hs
  | .CompositeLit typ elts, slot, w, n1, w1, h, hs => by
    rw [applyNode] at h
    split at h
    · cases h
    · rename_i t1 wa ha
      split at h
      · cases h
      · rename_i e1 wb hb
        exact post_sound _ _ _ _ _ h
          (applyList_sound elts wa e1 wb hb (applyOption_sound typ w t1 wa ha hs))
  | .ParenExpr x, slot, w, n1, w1, h, hs => by
    rw [applyNode] at h
    split at h
    · cases h
    · rename_i x1 wa ha
      exact post_sound _ _ _ _ _ h (applyNode_sound x _ w x1 wa ha hs)
  | .SelectorExpr x _, slot, w, n1, w1, h, hs => by
    rw [applyNode] at h
    split at h
    · cases h
    · rename_i x1 wa ha
      exact post_sound _ _ _ _ _ h (applyNode_sound x _ w x1 wa ha hs)
  | .CallExpr f args _, slot, w, n1, w1, h, hs => by
    rw [applyNode] at h
    split at h
    · cases h
    · rename_i f1 wa ha
      split at h
      · cases h
      · rename_i a1 wb hb
        exact post_sound _ _ _ _ _ h
          (applyList_sound args wa a1 wb hb (applyNode_sound f _ w f1 wa ha hs))
  | .UnaryExpr _ x, slot, w, n1, w1, h, hs => by
    rw [applyNode] at h
    split at h
    · cases h
    · rename_i x1 wa ha
      exact post_sound _ _ _ _ _ h (applyNode_sound x _ w x1 wa ha hs)
  | .BinaryExpr x _ y, slot, w, n1, w1, h, hs => by
    rw [applyNode] at h
    split at h
    · cases h
    · rename_i x1 wa ha
      split at h
      · cases h
      · rename_i y1 wb hb
        exact post_sound _ _ _ _ _ h
          (applyNode_sound y _ wa y1 wb hb (applyNode_sound x _ w x1 wa ha hs))
  | .DeferStmt x, slot, w, n1, w1, h, hs => by
    rw [applyNode] at h
    split at h
    · cases h
    · rename_i x1 wa ha
      exact post_sound _ _ _ _ _ h (applyNode_sound x _ w x1 wa ha hs)
  | .GoStmt x, slot, w, n1, w1, h, hs => by
    rw [applyNode] at h
    split at h
    · cases h
    · rename_i x1 wa ha
      exact post_sound _ _ _ _ _ h (applyNode_sound x _ w x1 wa ha hs)
  | .Other _ children, slot, w, n1, w1, h, hs => by
    rw [applyNode] at h
    split at h
    · cases h
    · rename_i c1 wa ha
      exact post_sound _ _ _ _ _ h (applyList_sound children w c1 wa ha hs)
theorem applyList_sound : ∀ (ns : List Node) (w : Walk) (ns1 : List Node) (w1 : Walk),
    applyList ns w = .ok (ns1, w1) → w.Sound → w1.Sound
  | [], w, ns1, w1, h, hs => by
    rw [applyList] at h
    cases h
    exact hs
  | n :: rest, w, ns1, w1, h, hs => by
    rw [applyList] at h
    split at h
    · cases h
    · rename_i n1 wa ha
      split at h
      · cases h
      · rename_i r1 wb hb
        cases h
        exact applyList_sound rest wa r1 _ hb (applyNode_sound n _ w n1 wa ha hs)
theorem applyOption_sound : ∀ (o : Option Node) (w : Walk) (o1 : Option Node) (w1 : Walk),
    applyOption o w = .ok (o1, w1) → w.Sound → w1.Sound
  | none, w, o1, w1, h, hs => by
    rw [applyOption] at h
    cases h
    exact hs
  | some n, w, o1, w1, h, hs => by
    rw [applyOption] at h
    split at h
    · cases h
    · rename_i n1 wa ha
      cases h
      exact applyNode_sound n _ w n1 _ ha hs
end

/-- What `rewriteFile` returns, in terms of the traversal. -/
theorem rewriteFile_ok (uses : Node → String → Bool) (file : Node) (st : Rewritten)
    (h : rewriteFile uses file = .ok st) :
    ∃ w, applyNode file .Expr Walk.start = .ok (st.file, w)
      ∧ st.fileModified = w.fileModified ∧ st.addImport = w.addImport
      ∧ st.stdout = w.stdout ∧ st.calls = w.calls
      ∧ st.imports
        = if w.fileModified then
            (if w.addImport then [ImportOp.AddImport serrorsPath] else [])
              ++ (if !uses st.file commonPath then [ImportOp.DeleteImport commonPath] else [])
          else [] := by
  unfold rewriteFile at h
  split at h
  · cases h
  · rename_i file1 w hw
    cases h
    exact ⟨w, hw, rfl, rfl, rfl, rfl, rfl⟩

/-- The import flag of a file implies its modified flag. -/
theorem Walk.Sound.addImport_modified (w : Walk) (hs : w.Sound) (h : w.addImport = true) :
    w.fileModified = true := by
  obtain ⟨h1, h2, h3⟩ := hs
  rw [h2, List.any_eq_true] at h
  obtain ⟨r, hr, hreq⟩ := h
  obtain ⟨c, hc⟩ := h3 r hr
  rw [h1, List.any_eq_true]
  exact ⟨r, hr, (handleNewError_shape c r hc).elim (fun e => by simp [e, noMatch] at hreq)
    (fun e => e.elim (fun ⟨_, _, _, _, e⟩ => by simp [e] at hreq)
      (fun ⟨_, _, _, _, _, e⟩ => by simp [e]))⟩

/-! ## The imports of a file -/

/-- C11: for one file, `astutil.AddImport` is called for the `serrors` path
exactly once when at least one call of `handleNewError` on a node of the file
rewrote it into a `serrors` call (returned the import flag), however many did;
and it is not called at all otherwise (no match in the file, or unwraps
only). -/
theorem rewriteFile_addImport (uses : Node → String → Bool) (file : Node) (st : Rewritten)
    (h : rewriteFile uses file = .ok st) :
    ((∃ r ∈ st.calls, r.importReq = true) →
        st.imports.count (.AddImport serrorsPath) = 1)
    ∧ ((∀ r ∈ st.calls, r.importReq = false) →
        st.imports.count (.AddImport serrorsPath) = 0) := by
  obtain ⟨w, hw, _, _, _, hcalls, himports⟩ := rewriteFile_ok uses file st h
  have hs := applyNode_sound file .Expr Walk.start st.file w hw Walk.start_sound
  rw [himports, hcalls]
  constructor
  · rintro ⟨r, hr, hreq⟩
    have hadd : w.addImport = true := by
      rw [hs.2.1, List.any_eq_true]
      exact ⟨r, hr, hreq⟩
    have hmod := Walk.Sound.addImport_modified w hs hadd
    rw [hmod, hadd]
    cases uses st.file commonPath <;> simp [serrorsPath, commonPath]
  · intro hall
    have hadd : w.addImport = false := by
      rw [hs.2.1, List.any_eq_false]
      intro r hr
      simp [hall r hr]
    rw [hadd]
    cases w.fileModified <;> cases uses st.file commonPath <;> simp

/-- A use of C11 at a file with two call sites,
`common.NewBasicError("boom", nil)` and `common.NewBasicError("bang", err)`:
one call of `AddImport`. -/
theorem rewriteFile_addImport_witness :
    ∃ st, rewriteFile (fun _ _ => false)
        (.Other "File"
          [.Other "ExprStmt" [legacyCall [.BasicLit .STRING "\"boom\"", nilIdent] false],
           .Other "ExprStmt" [legacyCall [.BasicLit .STRING "\"bang\"", .Ident "err"] false]])
        = .ok st
      ∧ st.imports.count (.AddImport serrorsPath) = 1 := by
  have h : ∃ st, rewriteFile (fun _ _ => false)
        (.Other "File"
          [.Other "ExprStmt" [legacyCall [.BasicLit .STRING "\"boom\"", nilIdent] false],
           .Other "ExprStmt" [legacyCall [.BasicLit .STRING "\"bang\"", .Ident "err"] false]])
        = .ok st
      ∧ ∃ r ∈ st.calls, r.importReq = true :=
    ⟨_, rfl,
      Ret.mk true true true ⟨newCall "serrors" "New" [.BasicLit .STRING "\"boom\""], .Expr⟩ [],
      List.mem_iff_getElem?.mpr ⟨4, rfl⟩, rfl⟩
  obtain ⟨st, hst, hreq⟩ := h
  exact ⟨st, hst, (rewriteFile_addImport _ _ st hst).1 hreq⟩

/-- The callback on a file that ends unmodified has left the node alone. -/
theorem post_unmodified (n : Node) (slot : Slot) (w : Walk) (n1 : Node) (w1 : Walk)
    (h : post n slot w = .ok (n1, w1)) (hm : w1.fileModified = false) :
    n1 = n ∧ w.fileModified = false := by
  unfold post at h
  split at h
  · cases h
    exact ⟨rfl, hm⟩
  · split at h
    · cases h
    · rename_i r hr
      cases h
      simp only [Bool.or_eq_false_iff] at hm
      refine ⟨?_, hm.1⟩
      rcases handleNewError_shape _ r hr with e | ⟨_, _, _, _, e⟩ | ⟨_, _, _, _, _, e⟩
      · rw [e]
        rfl
      · rw [e] at hm
        simp at hm
      · rw [e] at hm
        simp at hm

mutual
theorem applyNode_unmodified : ∀ (n : Node) (slot : Slot) (w : Walk) (n1 : Node) (w1 : Walk),
    applyNode n slot w = .ok (n1, w1) → w1.fileModified = false →
    n1 = n ∧ w.fileModified = false
  | .Ident _, slot, w, n1, w1, h, hm => by
    rw [applyNode] at h
    exact post_unmodified _ _ _ _ _ h hm
  | .BasicLit _ _, slot, w, n1, w1, h, hm => by
    rw [applyNode] at h
    exact post_unmodified _ _ _ _ _ h hm
  | .CompositeLit typ elts, slot, w, n1, w1, h, hm => by
    rw [applyNode] at h
    split at h
    · cases h
    · rename_i t1 wa ha
      split at h
      · cases h
      · rename_i e1 wb hb
        obtain ⟨p1, p2⟩ := post_unmodified _ _ _ _ _ h hm
        obtain ⟨q1, q2⟩ := applyList_unmodified elts wa e1 wb hb p2
        obtain ⟨r1, r2⟩ := applyOption_unmodified typ w t1 wa ha q2
        exact ⟨by rw [p1, q1, r1], r2⟩
  | .ParenExpr x, slot, w, n1, w1, h, hm => by
    rw [applyNode] at h
    split at h
    · cases h
    · rename_i x1 wa ha
      obtain ⟨p1, p2⟩ := post_unmodified _ _ _ _ _ h hm
      obtain ⟨q1, q2⟩ := applyNode_unmodified x _ w x1 wa ha p2
      exact ⟨by rw [p1, q1], q2⟩
  | .SelectorExpr x _, slot, w, n1, w1, h, hm => by
    rw [applyNode] at h
    split at h
    · cases h
    · rename_i x1 wa ha
      obtain ⟨p1, p2⟩ := post_unmodified _ _ _ _ _ h hm
      obtain ⟨q1, q2⟩ := applyNode_unmodified x _ w x1 wa ha p2
      exact ⟨by rw [p1, q1], q2⟩
  | .CallExpr f args _, slot, w, n1, w1, h, hm => by
    rw [applyNode] at h
    split at h
    · cases h
    · rename_i f1 wa ha
      split at h
      · cases h
      · rename_i a1 wb hb
        obtain ⟨p1, p2⟩ := post_unmodified _ _ _ _ _ h hm
        obtain ⟨q1, q2⟩ := applyList_unmodified args wa a1 wb hb p2
        obtain ⟨r1, r2⟩ := applyNode_unmodified f _ w f1 wa ha q2
        exact ⟨by rw [p1, q1, r1], r2⟩
  | .UnaryExpr _ x, slot, w, n1, w1, h, hm => by
    rw [applyNode] at h
    split at h
    · cases h
    · rename_i x1 wa ha
      obtain ⟨p1, p2⟩ := post_unmodified _ _ _ _ _ h hm
      obtain ⟨q1, q2⟩ := applyNode_unmodified x _ w x1 wa ha p2
      exact ⟨by rw [p1, q1], q2⟩
  | .BinaryExpr x _ y, slot, w, n1, w1, h, hm => by
    rw [applyNode] at h
    split at h
    · cases h
    · rename_i x1 wa ha
      split at h
      · cases h
      · rename_i y1 wb hb
        obtain ⟨p1, p2⟩ := post_unmodified _ _ _ _ _ h hm
        obtain ⟨q1, q2⟩ := applyNode_unmodified y _ wa y1 wb hb p2
        obtain ⟨r1, r2⟩ := applyNode_unmodified x _ w x1 wa ha q2
        exact ⟨by rw [p1, q1, r1], r2⟩
  | .DeferStmt x, slot, w, n1, w1, h, hm => by
    rw [applyNode] at h
    split at h
    · cases h
    · rename_i x1 wa ha
      obtain ⟨p1, p2⟩ := post_unmodified _ _ _ _ _ h hm
      obtain ⟨q1, q2⟩ := applyNode_unmodified x _ w x1 wa ha p2
      exact ⟨by rw [p1, q1], q2⟩
  | .GoStmt x, slot, w, n1, w1, h, hm => by
    rw [applyNode] at h
    split at h
    · cases h
    · rename_i x1 wa ha
      obtain ⟨p1, p2⟩ := post_unmodified _ _ _ _ _ h hm
      obtain ⟨q1, q2⟩ := applyNode_unmodified x _ w x1 wa ha p2
      exact ⟨by rw [p1, q1], q2⟩
  | .Other _ children, slot, w, n1, w1, h, hm => by
    rw [applyNode] at h
    split at h
    · cases h
    · rename_i c1 wa ha
      obtain ⟨p1, p2⟩ := post_unmodified _ _ _ _ _ h hm
      obtain ⟨q1, q2⟩ := applyList_unmodified children w c1 wa ha p2
      exact ⟨by rw [p1, q1], q2⟩
theorem applyList_unmodified : ∀ (ns : List Node) (w : Walk) (ns1 : List Node) (w1 : Walk),
    applyList ns w = .ok (ns1, w1) → w1.fileModified = false →
    ns1 = ns ∧ w.fileModified = false
  | [], w, ns1, w1, h, hm => by
    rw [applyList] at h
    cases h
    exact ⟨rfl, hm⟩
  | n :: rest, w, ns1, w1, h, hm => by
    rw [applyList] at h
    split at h
    · cases h
    · rename_i n1 wa ha
      split at h
      · cases h
      · rename_i r1 wb hb
        cases h
        obtain ⟨q1, q2⟩ := applyList_unmodified rest wa r1 _ hb hm
        obtain ⟨r1, r2⟩ := applyNode_unmodified n _ w n1 wa ha q2
        exact ⟨by rw [q1, r1], r2⟩
theorem applyOption_unmodified : ∀ (o : Option Node) (w : Walk) (o1 : Option Node)
    (w1 : Walk), applyOption o w = .ok (o1, w1) → w1.fileModified = false →
    o1 = o ∧ w.fileModified = false
  | none, w, o1, w1, h, hm => by
    rw [applyOption] at h
    cases h
    exact ⟨rfl, hm⟩
  | some n, w, o1, w1, h, hm => by
    rw [applyOption] at h
    split at h
    · cases h
    · rename_i n1 wa ha
      cases h
      obtain ⟨r1, r2⟩ := applyNode_unmodified n _ w n1 _ ha hm
      exact ⟨by rw [r1], r2⟩
end

/-- The calls on the import declarations of one file: `DeleteImport` is
called (once) for the `common` path when the traversal replaced a node and no
reference to `common` remains; no call is made on a file in which nothing
was replaced. -/
theorem rewriteFile_deleteImport (uses : Node → String → Bool) (file : Node) (st : Rewritten)
    (h : rewriteFile uses file = .ok st) :
    (st.fileModified = true → uses st.file commonPath = false →
        st.imports.count (.DeleteImport commonPath) = 1)
    ∧ (st.fileModified = true → uses st.file commonPath = true →
        st.imports.count (.DeleteImport commonPath) = 0)
    ∧ (st.fileModified = false → st.imports = [] ∧ st.file = file) := by
  obtain ⟨w, hw, hmod, _, _, _, himports⟩ := rewriteFile_ok uses file st h
  rw [himports, ← hmod]
  refine ⟨fun h1 h2 => ?_, fun h1 h2 => ?_, fun h1 => ?_⟩
  · rw [h1, h2]
    cases w.addImport <;> simp [commonPath, serrorsPath]
  · rw [h1, h2]
    cases w.addImport <;> simp [commonPath, serrorsPath]
  · rw [h1]
    exact ⟨by simp, (applyNode_unmodified file _ _ _ w hw (hmod ▸ h1)).1⟩

/-- C12: take a file that was loaded without errors, so that its import of
`common`, if it has one, is used. After the work on the file, if no reference
to `common` remains in the tree, the import of `common` is absent from the
imports of the file (it was deleted, or it was not there); if a reference
remains, `DeleteImport` is not called and the import of `common` is as it
was. Both hold whether or not a call of the file was rewritten. -/
theorem rewriteFile_common_import (uses : Node → String → Bool) (file : Node)
    (imports : List String) (st : Rewritten) (h : rewriteFile uses file = .ok st)
    (hload : commonPath ∈ imports → uses file commonPath = true) :
    (uses st.file commonPath = false → commonPath ∉ runImports st.imports imports)
    ∧ (uses st.file commonPath = true →
        st.imports.count (.DeleteImport commonPath) = 0
        ∧ (commonPath ∈ runImports st.imports imports ↔ commonPath ∈ imports)) := by
  obtain ⟨w, hw, hmod, hadd, _, _, himports⟩ := rewriteFile_ok uses file st h
  cases hm : w.fileModified
  · obtain ⟨hfile, _⟩ := applyNode_unmodified file _ _ _ w hw hm
    have hops : st.imports = [] := by rw [himports, hm]; rfl
    rw [hops, hfile]
    refine ⟨fun hu hin => ?_, fun _ => ⟨rfl, Iff.rfl⟩⟩
    have hin1 : commonPath ∈ imports := hin
    rw [hload hin1] at hu
    cases hu
  · refine ⟨fun hu => ?_, fun hu => ?_⟩
    · rw [himports, hm, hu]
      cases w.addImport <;>
        simp [runImports, ImportOp.run]
    · rw [himports, hm, hu]
      cases w.addImport
      · simp [runImports]
      · have hne : commonPath ≠ serrorsPath := by decide
        by_cases hin : serrorsPath ∈ imports
        · simp [runImports, ImportOp.run, hin]
        · simp [runImports, ImportOp.run, hin, hne]

/-- A use of C12 at a file that imports `fmt` and `common` and holds only
`common.NewBasicError("boom", nil)`: the call is rewritten, no reference to
`common` remains, and `common` is no longer among the imports. -/
theorem rewriteFile_common_import_witness :
    ∃ st, rewriteFile (fun tree _ => usesIdent "common" tree)
        (.Other "File"
          [.Other "ExprStmt" [legacyCall [.BasicLit .STRING "\"boom\"", nilIdent] false]])
        = .ok st
      ∧ commonPath ∉ runImports st.imports ["fmt", commonPath] := by
  have h : ∃ st, rewriteFile (fun tree _ => usesIdent "common" tree)
        (.Other "File"
          [.Other "ExprStmt" [legacyCall [.BasicLit .STRING "\"boom\"", nilIdent] false]])
        = .ok st
      ∧ usesIdent "common" st.file = false :=
    ⟨_, rfl, rfl⟩
  obtain ⟨st, hst, huses⟩ := h
  exact ⟨st, hst,
    (rewriteFile_common_import _ _ ["fmt", commonPath] st hst (fun _ => rfl)).1 huses⟩

/-! ## Files without legacy calls -/

theorem handleNewError_of_not_legacy {slot : Slot} (n : Node) (h : n.isLegacyCall = false) :
    handleNewError ⟨n, slot⟩ = .ok (noMatch ⟨n, slot⟩) := by
  rcases handleNewError_noMatch_or_legacy ⟨n, slot⟩ with hno | ⟨args, ell, hc⟩
  · exact hno
  · simp only at hc
    subst hc
    simp [legacyCall, Node.isLegacyCall] at h

/-- On a node that is not matched the callback changes nothing but the
record. -/
theorem post_of_noMatch (n : Node) (slot : Slot) (w : Walk) (ha : w.aborted = false)
    (h : handleNewError ⟨n, slot⟩ = .ok (noMatch ⟨n, slot⟩)) :
    post n slot w = .ok (n, { w with calls := w.calls ++ [noMatch ⟨n, slot⟩] }) := by
  simp [post, ha, h, noMatch]

theorem Node.self_mem_nodes (n : Node) : n ∈ n.nodes := by
  cases n <;> simp [Node.nodes]

theorem post_frame (n : Node) (slot : Slot) (w : Walk) (l1 : List Ret) (ha : w.aborted = false)
    (hn : handleNewError ⟨n, slot⟩ = .ok (noMatch ⟨n, slot⟩))
    (m1 : ∀ r ∈ l1, ∃ c, r = noMatch c) :
    ∃ log, post n slot { w with calls := w.calls ++ l1 }
        = .ok (n, { w with calls := w.calls ++ log })
      ∧ ∀ r ∈ log, ∃ c, r = noMatch c := by
  rw [post_of_noMatch n slot { w with calls := w.calls ++ l1 } ha hn]
  refine ⟨l1 ++ [noMatch ⟨n, slot⟩], by simp, ?_⟩
  intro r hr
  simp only [List.mem_append, List.mem_singleton] at hr
  rcases hr with hr | hr
  · exact m1 r hr
  · exact ⟨_, hr⟩

mutual
theorem applyNode_frame : ∀ (n : Node) (slot : Slot) (w : Walk), w.aborted = false →
    (∀ m ∈ n.nodes, ∀ s, handleNewError ⟨m, s⟩ = .ok (noMatch ⟨m, s⟩)) →
    ∃ log, applyNode n slot w = .ok (n, { w with calls := w.calls ++ log })
      ∧ ∀ r ∈ log, ∃ c, r = noMatch c
  | .Ident name, slot, w, ha, h => by
    rw [applyNode]
    simpa using post_frame (.Ident name) slot w [] ha (h _ (Node.self_mem_nodes _) slot)
      (by simp)
  | .BasicLit kind value, slot, w, ha, h => by
    rw [applyNode]
    simpa using post_frame (.BasicLit kind value) slot w [] ha
      (h _ (Node.self_mem_nodes _) slot) (by simp)
  | .CompositeLit typ elts, slot, w, ha, h => by
    obtain ⟨l1, e1, m1⟩ := applyOption_frame typ w ha
      (fun m hm => h m (by simp [Node.nodes, hm]))
    obtain ⟨l2, e2, m2⟩ := applyList_frame elts { w with calls := w.calls ++ l1 } ha
      (fun m hm => h m (by simp [Node.nodes, hm]))
    rw [applyNode, e1]
    simp only [e2, List.append_assoc]
    exact post_frame (.CompositeLit typ elts) slot w (l1 ++ l2) ha
      (h _ (Node.self_mem_nodes _) slot)
      (fun r hr => (List.mem_append.mp hr).elim (m1 r) (m2 r))
  | .ParenExpr x, slot, w, ha, h => by
    obtain ⟨l1, e1, m1⟩ := applyNode_frame x .Expr w ha
      (fun m hm => h m (by simp [Node.nodes, hm]))
    rw [applyNode, e1]
    exact post_frame (.ParenExpr x) slot w l1 ha (h _ (Node.self_mem_nodes _) slot) m1
  | .SelectorExpr x sel, slot, w, ha, h => by
    obtain ⟨l1, e1, m1⟩ := applyNode_frame x .Expr w ha
      (fun m hm => h m (by simp [Node.nodes, hm]))
    rw [applyNode, e1]
    exact post_frame (.SelectorExpr x sel) slot w l1 ha (h _ (Node.self_mem_nodes _) slot) m1
  | .CallExpr f args ell, slot, w, ha, h => by
    obtain ⟨l1, e1, m1⟩ := applyNode_frame f .Expr w ha
      (fun m hm => h m (by simp [Node.nodes, hm]))
    obtain ⟨l2, e2, m2⟩ := applyList_frame args { w with calls := w.calls ++ l1 } ha
      (fun m hm => h m (by simp [Node.nodes, hm]))
    rw [applyNode, e1]
    simp only [e2, List.append_assoc]
    exact post_frame (.CallExpr f args ell) slot w (l1 ++ l2) ha
      (h _ (Node.self_mem_nodes _) slot)
      (fun r hr => (List.mem_append.mp hr).elim (m1 r) (m2 r))
  | .UnaryExpr op x, slot, w, ha, h => by
    obtain ⟨l1, e1, m1⟩ := applyNode_frame x .Expr w ha
      (fun m hm => h m (by simp [Node.nodes, hm]))
    rw [applyNode, e1]
    exact post_frame (.UnaryExpr op x) slot w l1 ha (h _ (Node.self_mem_nodes _) slot) m1
  | .BinaryExpr x op y, slot, w, ha, h => by
    obtain ⟨l1, e1, m1⟩ := applyNode_frame x .Expr w ha
      (fun m hm => h m (by simp [Node.nodes, hm]))
    obtain ⟨l2, e2, m2⟩ := applyNode_frame y .Expr { w with calls := w.calls ++ l1 } ha
      (fun m hm => h m (by simp [Node.nodes, hm]))
    rw [applyNode, e1]
    simp only [e2, List.append_assoc]
    exact post_frame (.BinaryExpr x op y) slot w (l1 ++ l2) ha
      (h _ (Node.self_mem_nodes _) slot)
      (fun r hr => (List.mem_append.mp hr).elim (m1 r) (m2 r))
  | .DeferStmt x, slot, w, ha, h => by
    obtain ⟨l1, e1, m1⟩ := applyNode_frame x .CallExpr w ha
      (fun m hm => h m (by simp [Node.nodes, hm]))
    rw [applyNode, e1]
    exact post_frame (.DeferStmt x) slot w l1 ha (h _ (Node.self_mem_nodes _) slot) m1
  | .GoStmt x, slot, w, ha, h => by
    obtain ⟨l1, e1, m1⟩ := applyNode_frame x .CallExpr w ha
      (fun m hm => h m (by simp [Node.nodes, hm]))
    rw [applyNode, e1]
    exact post_frame (.GoStmt x) slot w l1 ha (h _ (Node.self_mem_nodes _) slot) m1
  | .Other kind children, slot, w, ha, h => by
    obtain ⟨l1, e1, m1⟩ := applyList_frame children w ha
      (fun m hm => h m (by simp [Node.nodes, hm]))
    rw [applyNode, e1]
    exact post_frame (.Other kind children) slot w l1 ha (h _ (Node.self_mem_nodes _) slot) m1
theorem applyList_frame : ∀ (ns : List Node) (w : Walk), w.aborted = false →
    (∀ m ∈ nodesList ns, ∀ s, handleNewError ⟨m, s⟩ = .ok (noMatch ⟨m, s⟩)) →
    ∃ log, applyList ns w = .ok (ns, { w with calls := w.calls ++ log })
      ∧ ∀ r ∈ log, ∃ c, r = noMatch c
  | [], w, _, _ => ⟨[], by simp [applyList], by simp⟩
  | n :: rest, w, ha, h => by
    obtain ⟨l1, e1, m1⟩ := applyNode_frame n .Expr w ha
      (fun m hm => h m (by simp [nodesList, hm]))
    obtain ⟨l2, e2, m2⟩ := applyList_frame rest { w with calls := w.calls ++ l1 } ha
      (fun m hm => h m (by simp [nodesList, hm]))
    rw [applyList, e1]
    simp only [e2, List.append_assoc]
    exact ⟨l1 ++ l2, rfl, fun r hr => (List.mem_append.mp hr).elim (m1 r) (m2 r)⟩
theorem applyOption_frame : ∀ (o : Option Node) (w : Walk), w.aborted = false →
    (∀ m ∈ nodesOption o, ∀ s, handleNewError ⟨m, s⟩ = .ok (noMatch ⟨m, s⟩)) →
    ∃ log, applyOption o w = .ok (o, { w with calls := w.calls ++ log })
      ∧ ∀ r ∈ log, ∃ c, r = noMatch c
  | none, w, _, _ => ⟨[], by simp [applyOption], by simp⟩
  | some n, w, ha, h => by
    obtain ⟨l1, e1, m1⟩ := applyNode_frame n .Expr w ha
      (fun m hm => h m (by simp [nodesOption, hm]))
    rw [applyOption, e1]
    exact ⟨l1, rfl, m1⟩
end

/-- C13: on a file whose tree holds no call of `common.NewBasicError`, the
work on the file replaces no node (the tree comes back as it was and every
call of `handleNewError` is a no match), leaves both flags false, and calls
neither `AddImport` nor `DeleteImport`. -/
theorem rewriteFile_of_no_legacy (uses : Node → String → Bool) (file : Node)
    (h : ∀ m ∈ file.nodes, m.isLegacyCall = false) :
    ∃ st, rewriteFile uses file = .ok st
      ∧ st.file = file ∧ st.fileModified = false ∧ st.addImport = false
      ∧ st.imports = [] ∧ st.stdout = []
      ∧ ∀ r ∈ st.calls, ∃ c, r = noMatch c := by
  obtain ⟨log, e, hlog⟩ := applyNode_frame file .Expr Walk.start rfl
    (fun m hm _ => handleNewError_of_not_legacy m (h m hm))
  refine ⟨_, by rw [rewriteFile, e], rfl, rfl, rfl, rfl, rfl, ?_⟩
  intro r hr
  exact hlog r (by simpa [Walk.start] using hr)

/-- A use of C13 at a migrated file holding `serrors.New("boom")` and
`serrors.Wrap(msgExpr, err)`. -/
theorem rewriteFile_of_no_legacy_witness :
    ∃ st, rewriteFile (fun _ _ => false)
        (.Other "File"
          [.Other "ExprStmt" [newCall "serrors" "New" [.BasicLit .STRING "\"boom\""]],
           .Other "ExprStmt" [newCall "serrors" "Wrap" [.Ident "msgExpr", .Ident "err"]]])
        = .ok st
      ∧ st.file = .Other "File"
          [.Other "ExprStmt" [newCall "serrors" "New" [.BasicLit .STRING "\"boom\""]],
           .Other "ExprStmt" [newCall "serrors" "Wrap" [.Ident "msgExpr", .Ident "err"]]]
      ∧ st.fileModified = false ∧ st.addImport = false
      ∧ st.imports = [] ∧ st.stdout = []
      ∧ ∀ r ∈ st.calls, ∃ c, r = noMatch c :=
  rewriteFile_of_no_legacy _ _
    (by simp [Node.nodes, nodesList, newCall, Node.isLegacyCall])

/-! ## One pass over a tree -/

/-- C20, on the code: in `common.NewBasicError(common.NewBasicError, nil)()`
the only call of `common.NewBasicError` has two arguments. The pass unwraps
it, which leaves `common.NewBasicError()` as the outer call, and
`handleNewError` then panics on that call in the index expression
`ce.Args[1]`: the pass yields no tree. -/
theorem applyNode_unwrapped_callee_panics :
    (∀ m ∈ (Node.CallExpr
          (legacyCall [.SelectorExpr (.Ident "common") "NewBasicError", nilIdent] false) []
          false).nodes,
        ∀ args ell, m = legacyCall args ell → 2 ≤ args.length)
    ∧ applyNode
        (.CallExpr (legacyCall [.SelectorExpr (.Ident "common") "NewBasicError", nilIdent] false)
          [] false)
        .Expr Walk.start
      = .error (.indexOutOfRange 1 0) := by
  refine ⟨?_, rfl⟩
  intro m hm args ell he
  subst he
  simp [Node.nodes, nodesList, legacyCall, nilIdent] at hm
  rw [hm.1]
  simp

/-! ## Failures while writing -/

/-- C16, as stated, fails: with two files `a.go` and `b.go`, when the
destination of `a.go` cannot be opened, the run reports it on standard error
and ends with exit status 1; nothing is done for `b.go`. -/
theorem main_open_failure_is_fatal :
    main { load := .ok [{ files := [{ name := "a.go", tree := .Other "File" [] },
                                    { name := "b.go", tree := .Other "File" [] }] }],
           loadErrors := [],
           UsesImport := fun _ _ => false,
           openFails := fun name => name == "a.go",
           formatFails := fun _ => false }
      = ([.Stderr "Failed to open file for writing: a.go"], .exit 1) := by
  rfl

/-- C16, amended: when the loop reaches a file whose destination cannot be
opened, the failure is reported on standard error and the run ends there with
exit status 1, no remaining file being processed. When the file opens and
only `format.Node` fails, the failure is reported on standard output, the
file is closed, and the run goes on with every remaining file exactly as it
would without the failure, which does not change the exit status. -/
theorem doFiles_write_failure (world : World) (file : File) (rest : List File)
    (rw : Rewritten) (h : rewriteFile world.UsesImport file.tree = .ok rw) :
    (world.openFails file.name = true →
      doFiles world (file :: rest)
        = (rw.stdout.map Event.Stdout ++ rw.imports.map (Event.Import file.name)
            ++ [.Stderr ("Failed to open file for writing: " ++ file.name)],
           some (.exit 1)))
    ∧ (world.openFails file.name = false → world.formatFails file.name = true →
      doFiles world (file :: rest)
        = (rw.stdout.map Event.Stdout ++ rw.imports.map (Event.Import file.name)
            ++ [.Opened file.name] ++ [.Stdout "Failed to write file\n"]
            ++ [.Closed file.name] ++ (doFiles world rest).1,
           (doFiles world rest).2)) := by
  constructor
  · intro ho
    simp [doFiles, doFile, h, ho]
  · intro ho hf
    simp [doFiles, doFile, h, ho, hf]

/-- A use of the amended C16 at two files `a.go` and `b.go`, where
`format.Node` fails on `a.go`: `b.go` is still opened, written and closed. -/
theorem doFiles_write_failure_witness :
    doFiles { load := .ok [], loadErrors := [], UsesImport := fun _ _ => false,
              openFails := fun _ => false, formatFails := fun name => name == "a.go" }
        [{ name := "a.go", tree := .Other "File" [] },
         { name := "b.go", tree := .Other "File" [] }]
      = ([.Opened "a.go", .Stdout "Failed to write file\n", .Closed "a.go",
          .Opened "b.go", .Formatted "b.go" (.Other "File" []), .Closed "b.go"], none) :=
  ((doFiles_write_failure
      { load := .ok [], loadErrors := [], UsesImport := fun _ _ => false,
        openFails := fun _ => false, formatFails := fun name => name == "a.go" }
      { name := "a.go", tree := .Other "File" [] }
      [{ name := "b.go", tree := .Other "File" [] }]
      { file := .Other "File" [], fileModified := false, addImport := false, imports := [],
        stdout := [], calls := [noMatch ⟨.Other "File" [], .Expr⟩] }
      rfl).2 rfl rfl).trans rfl

/-! ## A pass leaves nothing to match

The pass of C20 fails only through the two panics. On a tree in which every
call whose function can have become `common.NewBasicError` has two arguments
or more, and in which no call of a `defer` or `go` statement can be
unwrapped, one pass returns a tree without any matched node, and a second
pass over that tree replaces nothing. -/

theorem mem_nodesList_of_mem (a : Node) (ns : List Node) (ha : a ∈ ns) (m : Node)
    (hm : m ∈ a.nodes) : m ∈ nodesList ns := by
  induction ns with
  | nil => simp at ha
  | cons n rest ih =>
    simp only [nodesList, List.mem_append]
    rcases List.mem_cons.mp ha with h | h
    · exact Or.inl (h ▸ hm)
    · exact Or.inr (ih h)

theorem exists_of_mem_nodesList (ns : List Node) (m : Node) (hm : m ∈ nodesList ns) :
    ∃ a ∈ ns, m ∈ a.nodes := by
  induction ns with
  | nil => simp [nodesList] at hm
  | cons n rest ih =>
    simp only [nodesList, List.mem_append] at hm
    rcases hm with h | h
    · exact ⟨n, by simp, h⟩
    · obtain ⟨a, ha, hma⟩ := ih h
      exact ⟨a, by simp [ha], hma⟩

/-- The arguments of a new `serrors` call are arguments of the call it
replaces. -/
theorem handleNewError_newArgs_subset {slot : Slot} (args : List Node) (ell : Bool) (r : Ret)
    (h : handleNewError ⟨legacyCall args ell, slot⟩ = .ok r) (hreq : r.importReq = true) :
    ∃ method newArgs, r.cursor.node = newCall "serrors" method newArgs
      ∧ ∀ a ∈ newArgs, a ∈ args := by
  match args, h with
  | [], h => simp [handleNewError_short [] ell (by decide)] at h
  | [a], h => simp [handleNewError_short [a] ell (by simp)] at h
  | a0 :: a1 :: ctx, h =>
    cases hid : a1.isIdent
    · rw [handleNewError_nonIdent a0 a1 ctx ell hid] at h
      cases h
      simp [noMatch] at hreq
    · cases a1 with
      | Ident name =>
        by_cases hname : name = "nil"
        · subst hname
          cases hb : a0.isBasicLit
          · cases ctx with
            | nil =>
              rw [handleNewError_nil_unwrap_of_ok a0 ell r hb h] at hreq
              simp at hreq
            | cons c cs =>
              rw [show Node.Ident "nil" = nilIdent from rfl,
                handleNewError_nil_withCtx a0 (c :: cs) ell hb (by simp)] at h
              cases h
              exact ⟨"WithCtx", a0 :: c :: cs, rfl, by
                intro a ha
                simp only [List.mem_cons] at ha ⊢
                tauto⟩
          · rw [show Node.Ident "nil" = nilIdent from rfl, handleNewError_nil_lit a0 ctx ell hb]
              at h
            cases h
            exact ⟨"New", a0 :: ctx, rfl, by
              intro a ha
              simp only [List.mem_cons] at ha ⊢
              tauto⟩
        · rw [handleNewError_ident a0 name ctx ell hname] at h
          cases h
          exact ⟨_, _, rfl, fun a ha => ha⟩
      | _ => simp [Node.isIdent] at hid

/-- Whether a node is matched does not depend on the place it sits in. -/
theorem handleNewError_noMatch_any_slot (n : Node) (s s1 : Slot)
    (h : handleNewError ⟨n, s⟩ = .ok (noMatch ⟨n, s⟩)) :
    handleNewError ⟨n, s1⟩ = .ok (noMatch ⟨n, s1⟩) := by
  rcases handleNewError_noMatch_or_legacy ⟨n, s1⟩ with hno | ⟨args, ell, hc⟩
  · exact hno
  · simp only at hc
    subst hc
    match args, h with
    | [], h => simp [handleNewError_short [] ell (by decide)] at h
    | [a], h => simp [handleNewError_short [a] ell (by simp)] at h
    | a0 :: a1 :: ctx, h =>
      cases hid : a1.isIdent
      · exact handleNewError_nonIdent a0 a1 ctx ell hid
      · cases a1 with
        | Ident name =>
          exfalso
          by_cases hname : name = "nil"
          · subst hname
            cases hb : a0.isBasicLit
            · cases ctx with
              | nil =>
                have e := handleNewError_nil_unwrap_of_ok a0 ell _ hb h
                simp [noMatch] at e
              | cons c cs =>
                rw [show Node.Ident "nil" = nilIdent from rfl,
                  handleNewError_nil_withCtx a0 (c :: cs) ell hb (by simp)] at h
                simp [noMatch] at h
            · rw [show Node.Ident "nil" = nilIdent from rfl,
                handleNewError_nil_lit a0 ctx ell hb] at h
              simp [noMatch] at h
          · rw [handleNewError_ident a0 name ctx ell hname] at h
            simp [noMatch] at h
        | _ => simp [Node.isIdent] at hid

theorem Node.tracks_legacy (f f1 : Node) (args1 : List Node) (ell : Bool) (ht : f.tracks f1)
    (hl : (Node.CallExpr f1 args1 ell).isLegacyCall = true) :
    f.mayBecomeLegacyCallee = true := by
  rcases ht with hc | ⟨_, h2⟩
  · cases f <;> simp [Node.isCall] at hc
    rfl
  · cases f1 with
    | SelectorExpr x1 sel =>
      cases x1 with
      | Ident pkg =>
        simp [Node.isLegacyCall] at hl
        obtain ⟨x, hf, hx⟩ := h2 _ _ rfl
        subst hf
        rcases hx with hxc | hxi
        · cases x <;> simp [Node.isCall] at hxc
          simp [Node.mayBecomeLegacyCallee, hl.2]
        · rw [hxi pkg rfl]
          simp [Node.mayBecomeLegacyCallee, hl.1, hl.2]
      | _ => simp [Node.isLegacyCall] at hl
    | _ => simp [Node.isLegacyCall] at hl

/-- The callback on a node that is not a call, all nodes below it being
unmatched. -/
theorem post_noncall_good (n1 : Node) (slot : Slot) (w : Walk) (ha : w.aborted = false)
    (hn : n1.isCall = false)
    (hsub : ∀ m ∈ n1.nodes, m = n1 ∨ ∀ s, handleNewError ⟨m, s⟩ = .ok (noMatch ⟨m, s⟩)) :
    ∃ w1, post n1 slot w = .ok (n1, w1) ∧ w1.aborted = false
      ∧ ∀ m ∈ n1.nodes, ∀ s, handleNewError ⟨m, s⟩ = .ok (noMatch ⟨m, s⟩) := by
  have hself : ∀ s, handleNewError ⟨n1, s⟩ = .ok (noMatch ⟨n1, s⟩) := fun s =>
    handleNewError_of_not_legacy n1 (by cases n1 <;> simp [Node.isCall] at hn <;> rfl)
  refine ⟨_, post_of_noMatch n1 slot w ha (hself slot), ha, fun m hm => ?_⟩
  rcases hsub m hm with h | h
  · exact h ▸ hself
  · exact h

/-- The callback on a call, all nodes below it being unmatched. -/
theorem post_call_good (f : Node) (args : List Node) (ell : Bool) (slot : Slot) (w : Walk)
    (ha : w.aborted = false)
    (hret : (Node.CallExpr f args ell).isLegacyCall = true → 2 ≤ args.length)
    (hrep : slot = .Expr ∨ ((Node.CallExpr f args ell).isLegacyCall = true → args.length ≠ 2))
    (hf : ∀ m ∈ f.nodes, ∀ s, handleNewError ⟨m, s⟩ = .ok (noMatch ⟨m, s⟩))
    (hargs : ∀ m ∈ nodesList args, ∀ s, handleNewError ⟨m, s⟩ = .ok (noMatch ⟨m, s⟩)) :
    ∃ n1 w1, post (.CallExpr f args ell) slot w = .ok (n1, w1) ∧ w1.aborted = false
      ∧ ∀ m ∈ n1.nodes, ∀ s, handleNewError ⟨m, s⟩ = .ok (noMatch ⟨m, s⟩) := by
  have hlegacy : ∀ a e, Node.CallExpr f args ell = legacyCall a e →
      (Node.CallExpr f args ell).isLegacyCall = true ∧ a = args := by
    intro a e h
    refine ⟨by rw [h]; simp [legacyCall, Node.isLegacyCall], ?_⟩
    simp only [legacyCall, Node.CallExpr.injEq] at h
    exact h.2.1.symm
  obtain ⟨r, hr⟩ := handleNewError_returns ⟨.CallExpr f args ell, slot⟩
    (by
      intro a e h
      obtain ⟨hl, ha1⟩ := hlegacy a e h
      rw [ha1]
      exact hret hl)
    (by
      rcases hrep with hrep | hrep
      · exact Or.inl hrep
      · refine Or.inr (fun msg e h => ?_)
        obtain ⟨hl, ha1⟩ := hlegacy _ e h
        exact absurd (by rw [← ha1]; rfl) (hrep hl))
  have hpost : post (.CallExpr f args ell) slot w
      = .ok (r.cursor.node,
          { fileModified := w.fileModified || r.modified,
            addImport := w.addImport || r.importReq,
            stdout := w.stdout ++ r.stdout, aborted := !r.cont, calls := w.calls ++ [r] }) := by
    simp [post, ha, hr]
  rcases handleNewError_shape _ r hr with he | ⟨msg, e, hc, _, he⟩
    | ⟨method, newArgs, out, _, ⟨a, e, hc⟩, he⟩
  · refine ⟨_, _, hpost, by simp [he, noMatch], ?_⟩
    intro m hm
    rw [he] at hm
    simp only [noMatch, Node.nodes, List.mem_append, List.mem_singleton] at hm
    rcases hm with (hm | hm) | hm
    · exact hf m hm
    · exact hargs m hm
    · intro s
      rw [hm]
      exact handleNewError_noMatch_any_slot _ slot s (he ▸ hr)
  · refine ⟨_, _, hpost, by simp [he], ?_⟩
    intro m hm
    rw [he] at hm
    simp only [legacyCall, Node.CallExpr.injEq] at hc
    apply hargs
    rw [hc.2.1]
    simp only [nodesList, List.mem_append]
    exact Or.inl hm
  · refine ⟨_, _, hpost, by simp [he], ?_⟩
    simp only at hc
    simp only [legacyCall, Node.CallExpr.injEq] at hc
    obtain ⟨hfun, hargs_eq, hell⟩ := hc
    have hr1 : handleNewError ⟨legacyCall args ell, slot⟩ = .ok r := by
      rw [← hr, legacyCall, hfun]
    obtain ⟨method1, newArgs1, hnode, hsub⟩ :=
      handleNewError_newArgs_subset args ell r hr1 (by simp [he])
    intro m hm
    rw [hnode] at hm
    simp only [newCall, Node.nodes, List.mem_append, List.mem_singleton, List.mem_cons,
      List.not_mem_nil, or_false] at hm
    rcases hm with ((hm | hm) | hm) | hm
    · intro s
      rw [hm]
      rfl
    · intro s
      rw [hm]
      rfl
    · obtain ⟨a1, ha1, hma⟩ := exists_of_mem_nodesList _ m hm
      exact hargs m (mem_nodesList_of_mem a1 args (hsub a1 ha1) m hma)
    · intro s
      rw [hm]
      exact handleNewError_serrors method1 newArgs1

mutual
theorem applyNode_pass : ∀ (n : Node) (slot : Slot) (w : Walk), w.aborted = false →
    (∀ m ∈ n.nodes, m.guarded = true) → (slot = .CallExpr → n.unwrapFree = true) →
    ∃ n1 w1, applyNode n slot w = .ok (n1, w1) ∧ w1.aborted = false
      ∧ (∀ m ∈ n1.nodes, ∀ s, handleNewError ⟨m, s⟩ = .ok (noMatch ⟨m, s⟩)) ∧ n.tracks n1
  | .Ident name, slot, w, ha, _, _ => by
    obtain ⟨w9, hp, a9, hg⟩ := post_noncall_good (.Ident name) slot w ha rfl (fun m hm => by
      simp only [Node.nodes, List.mem_singleton] at hm
      exact Or.inl hm)
    refine ⟨_, w9, by rw [applyNode]; exact hp, a9, hg, Or.inr ⟨fun p hp1 => hp1, ?_⟩⟩
    intro y s hs
    cases hs
  | .BasicLit kind value, slot, w, ha, _, _ => by
    obtain ⟨w9, hp, a9, hg⟩ := post_noncall_good (.BasicLit kind value) slot w ha rfl
      (fun m hm => by
        simp only [Node.nodes, List.mem_singleton] at hm
        exact Or.inl hm)
    refine ⟨_, w9, by rw [applyNode]; exact hp, a9, hg, Or.inr ⟨?_, ?_⟩⟩
    · intro p hp1
      cases hp1
    · intro y s hs
      cases hs
  | .CompositeLit typ elts, slot, w, ha, h, _ => by
    obtain ⟨t1, wa, e1, a1, g1⟩ := applyOption_pass typ w ha
      (fun m hm => h m (by simp [Node.nodes, hm]))
    obtain ⟨l1, wb, e2, a2, g2, _⟩ := applyList_pass elts wa a1
      (fun m hm => h m (by simp [Node.nodes, hm]))
    obtain ⟨w9, hp, a9, hg⟩ := post_noncall_good (.CompositeLit t1 l1) slot wb a2 rfl
      (fun m hm => by
        simp only [Node.nodes, List.mem_append, List.mem_singleton] at hm
        rcases hm with (hm | hm) | hm
        · exact Or.inr (g1 m hm)
        · exact Or.inr (g2 m hm)
        · exact Or.inl hm)
    refine ⟨_, w9, by rw [applyNode, e1]; simp only [e2]; exact hp, a9, hg, Or.inr ⟨?_, ?_⟩⟩
    · intro p hp1
      cases hp1
    · intro y s hs
      cases hs
  | .ParenExpr x, slot, w, ha, h, _ => by
    obtain ⟨x1, wa, e1, a1, g1, t1⟩ := applyNode_pass x .Expr w ha
      (fun m hm => h m (by simp [Node.nodes, hm])) (fun hs => by cases hs)
    obtain ⟨w9, hp, a9, hg⟩ := post_noncall_good (.ParenExpr x1) slot wa a1 rfl (fun m hm => by
      simp only [Node.nodes, List.mem_append, List.mem_singleton] at hm
      exact hm.elim (fun hm => Or.inr (g1 m hm)) Or.inl)
    refine ⟨_, w9, by rw [applyNode, e1]; exact hp, a9, hg, Or.inr ⟨?_, ?_⟩⟩
    · intro p hp1
      cases hp1
    · intro y s hs
      cases hs
  | .SelectorExpr x sel, slot, w, ha, h, _ => by
    obtain ⟨x1, wa, e1, a1, g1, t1⟩ := applyNode_pass x .Expr w ha
      (fun m hm => h m (by simp [Node.nodes, hm])) (fun hs => by cases hs)
    obtain ⟨w9, hp, a9, hg⟩ := post_noncall_good (.SelectorExpr x1 sel) slot wa a1 rfl (fun m hm => by
      simp only [Node.nodes, List.mem_append, List.mem_singleton] at hm
      exact hm.elim (fun hm => Or.inr (g1 m hm)) Or.inl)
    refine ⟨_, w9, by rw [applyNode, e1]; exact hp, a9, hg, Or.inr ⟨?_, ?_⟩⟩
    · intro p hp1
      cases hp1
    · intro y s hs
      cases hs
      exact ⟨x, rfl, t1.elim Or.inl (fun t => Or.inr t.1)⟩
  | .CallExpr f args ell, slot, w, ha, h, hslot => by
    obtain ⟨f1, wa, e1, a1, g1, t1⟩ := applyNode_pass f .Expr w ha
      (fun m hm => h m (by simp [Node.nodes, hm])) (fun hs => by cases hs)
    obtain ⟨l1, wb, e2, a2, g2, hlen⟩ := applyList_pass args wa a1
      (fun m hm => h m (by simp [Node.nodes, hm]))
    obtain ⟨n1, w1, hp, a3, hg⟩ := post_call_good f1 l1 ell slot wb a2
      (by
        intro hl
        have hmay := Node.tracks_legacy f f1 l1 ell t1 hl
        have hgd := h _ (Node.self_mem_nodes (.CallExpr f args ell))
        simp only [Node.guarded, hmay, Bool.not_true, Bool.false_or, decide_eq_true_eq] at hgd
        rw [hlen]
        exact hgd)
      (by
        cases slot
        · exact Or.inl rfl
        · refine Or.inr (fun hl => ?_)
          have hmay := Node.tracks_legacy f f1 l1 ell t1 hl
          have hfree := hslot rfl
          simp only [Node.unwrapFree, hmay, Bool.not_true, Bool.false_or,
            decide_eq_true_eq] at hfree
          rw [hlen]
          exact hfree)
      g1 g2
    exact ⟨n1, w1, by rw [applyNode, e1]; simp only [e2]; exact hp, a3, hg, Or.inl rfl⟩
  | .UnaryExpr op x, slot, w, ha, h, _ => by
    obtain ⟨x1, wa, e1, a1, g1, t1⟩ := applyNode_pass x .Expr w ha
      (fun m hm => h m (by simp [Node.nodes, hm])) (fun hs => by cases hs)
    obtain ⟨w9, hp, a9, hg⟩ := post_noncall_good (.UnaryExpr op x1) slot wa a1 rfl (fun m hm => by
      simp only [Node.nodes, List.mem_append, List.mem_singleton] at hm
      exact hm.elim (fun hm => Or.inr (g1 m hm)) Or.inl)
    refine ⟨_, w9, by rw [applyNode, e1]; exact hp, a9, hg, Or.inr ⟨?_, ?_⟩⟩
    · intro p hp1
      cases hp1
    · intro y s hs
      cases hs
  | .BinaryExpr x op y, slot, w, ha, h, _ => by
    obtain ⟨x1, wa, e1, a1, g1, _⟩ := applyNode_pass x .Expr w ha
      (fun m hm => h m (by simp [Node.nodes, hm])) (fun hs => by cases hs)
    obtain ⟨y1, wb, e2, a2, g2, _⟩ := applyNode_pass y .Expr wa a1
      (fun m hm => h m (by simp [Node.nodes, hm])) (fun hs => by cases hs)
    obtain ⟨w9, hp, a9, hg⟩ := post_noncall_good (.BinaryExpr x1 op y1) slot wb a2 rfl
      (fun m hm => by
        simp only [Node.nodes, List.mem_append, List.mem_singleton] at hm
        rcases hm with (hm | hm) | hm
        · exact Or.inr (g1 m hm)
        · exact Or.inr (g2 m hm)
        · exact Or.inl hm)
    refine ⟨_, w9, by rw [applyNode, e1]; simp only [e2]; exact hp, a9, hg, Or.inr ⟨?_, ?_⟩⟩
    · intro p hp1
      cases hp1
    · intro z s hs
      cases hs
  | .DeferStmt x, slot, w, ha, h, _ => by
    obtain ⟨x1, wa, e1, a1, g1, t1⟩ := applyNode_pass x .CallExpr w ha
      (fun m hm => h m (by simp [Node.nodes, hm])) (fun _ => by simpa [Node.guarded] using h _ (Node.self_mem_nodes (.DeferStmt x)))
    obtain ⟨w9, hp, a9, hg⟩ := post_noncall_good (.DeferStmt x1) slot wa a1 rfl (fun m hm => by
      simp only [Node.nodes, List.mem_append, List.mem_singleton] at hm
      exact hm.elim (fun hm => Or.inr (g1 m hm)) Or.inl)
    refine ⟨_, w9, by rw [applyNode, e1]; exact hp, a9, hg, Or.inr ⟨?_, ?_⟩⟩
    · intro p hp1
      cases hp1
    · intro y s hs
      cases hs
  | .GoStmt x, slot, w, ha, h, _ => by
    obtain ⟨x1, wa, e1, a1, g1, t1⟩ := applyNode_pass x .CallExpr w ha
      (fun m hm => h m (by simp [Node.nodes, hm])) (fun _ => by simpa [Node.guarded] using h _ (Node.self_mem_nodes (.GoStmt x)))
    obtain ⟨w9, hp, a9, hg⟩ := post_noncall_good (.GoStmt x1) slot wa a1 rfl (fun m hm => by
      simp only [Node.nodes, List.mem_append, List.mem_singleton] at hm
      exact hm.elim (fun hm => Or.inr (g1 m hm)) Or.inl)
    refine ⟨_, w9, by rw [applyNode, e1]; exact hp, a9, hg, Or.inr ⟨?_, ?_⟩⟩
    · intro p hp1
      cases hp1
    · intro y s hs
      cases hs
  | .Other kind children, slot, w, ha, h, _ => by
    obtain ⟨l1, wa, e1, a1, g1, _⟩ := applyList_pass children w ha
      (fun m hm => h m (by simp [Node.nodes, hm]))
    obtain ⟨w9, hp, a9, hg⟩ := post_noncall_good (.Other kind l1) slot wa a1 rfl
      (fun m hm => by
        simp only [Node.nodes, List.mem_append, List.mem_singleton] at hm
        exact hm.elim (fun hm => Or.inr (g1 m hm)) Or.inl)
    refine ⟨_, w9, by rw [applyNode, e1]; exact hp, a9, hg, Or.inr ⟨?_, ?_⟩⟩
    · intro p hp1
      cases hp1
    · intro y s hs
      cases hs
theorem applyList_pass : ∀ (ns : List Node) (w : Walk), w.aborted = false →
    (∀ m ∈ nodesList ns, m.guarded = true) →
    ∃ ns1 w1, applyList ns w = .ok (ns1, w1) ∧ w1.aborted = false
      ∧ (∀ m ∈ nodesList ns1, ∀ s, handleNewError ⟨m, s⟩ = .ok (noMatch ⟨m, s⟩))
      ∧ ns1.length = ns.length
  | [], w, ha, _ => ⟨[], w, by simp [applyList], ha, by simp [nodesList], rfl⟩
  | n :: rest, w, ha, h => by
    obtain ⟨n1, wa, e1, a1, g1, _⟩ := applyNode_pass n .Expr w ha
      (fun m hm => h m (by simp [nodesList, hm])) (fun hs => by cases hs)
    obtain ⟨r1, wb, e2, a2, g2, hlen⟩ := applyList_pass rest wa a1
      (fun m hm => h m (by simp [nodesList, hm]))
    refine ⟨n1 :: r1, wb, by rw [applyList, e1]; simp only [e2], a2, ?_, by simp [hlen]⟩
    intro m hm
    simp only [nodesList, List.mem_append] at hm
    exact hm.elim (g1 m) (g2 m)
theorem applyOption_pass : ∀ (o : Option Node) (w : Walk), w.aborted = false →
    (∀ m ∈ nodesOption o, m.guarded = true) →
    ∃ o1 w1, applyOption o w = .ok (o1, w1) ∧ w1.aborted = false
      ∧ ∀ m ∈ nodesOption o1, ∀ s, handleNewError ⟨m, s⟩ = .ok (noMatch ⟨m, s⟩)
  | none, w, ha, _ => ⟨none, w, by simp [applyOption], ha, by simp [nodesOption]⟩
  | some n, w, ha, h => by
    obtain ⟨n1, wa, e1, a1, g1, _⟩ := applyNode_pass n .Expr w ha
      (fun m hm => h m (by simp [nodesOption, hm])) (fun hs => by cases hs)
    exact ⟨some n1, wa, by rw [applyOption, e1], a1, by simpa [nodesOption] using g1⟩
end

/-- One pass over a guarded tree returns a tree in which `handleNewError`
matches no node, and a second pass over that tree returns it unchanged, every
call of `handleNewError` being a no match. -/
theorem applyNode_twice (n : Node) (h : ∀ m ∈ n.nodes, m.guarded = true) :
    ∃ n1 w1, applyNode n .Expr Walk.start = .ok (n1, w1)
      ∧ (∀ m ∈ n1.nodes, ∀ s, handleNewError ⟨m, s⟩ = .ok (noMatch ⟨m, s⟩))
      ∧ ∃ w2, applyNode n1 .Expr Walk.start = .ok (n1, w2) ∧ w2.fileModified = false
          ∧ ∀ r ∈ w2.calls, ∃ c, r = noMatch c := by
  obtain ⟨n1, w1, e1, _, g1, _⟩ := applyNode_pass n .Expr Walk.start rfl h
    (fun hs => by cases hs)
  obtain ⟨log, e2, hlog⟩ := applyNode_frame n1 .Expr Walk.start rfl g1
  exact ⟨n1, w1, e1, g1, _, e2, rfl, fun r hr => hlog r (by simpa [Walk.start] using hr)⟩

/-- An instance: in `common.NewBasicError("m", common.NewBasicError(x, nil))`
the inner call is unwrapped to `x`, which makes the second argument of the
outer call an identifier, and the outer call becomes
`serrors.WrapStr("m", x)`. -/
theorem applyNode_nested_example :
    ∃ w1, applyNode
        (legacyCall [.BasicLit .STRING "\"m\"", legacyCall [.Ident "x", nilIdent] false] false)
        .Expr Walk.start
      = .ok (newCall "serrors" "WrapStr" [.BasicLit .STRING "\"m\"", .Ident "x"], w1) :=
  ⟨_, rfl⟩

end ErrMigrate
